import Mathlib

/-!
# ArchivedBooks: catalog ingestion, normalization and filter evaluation

A shallow embedding of the catalog core of the ArchivedBooks repository:

* `load_excel_to_df` cleaning (`app_one_tab_pro.py` / `kaveh_books1.py`, and the
  `build_installer.py` variant),
* the SQLite-backed catalog store (`create_schema`, `get_id`, `populate_replace`,
  `load_db_to_df`) in its three variants,
* the filter/search evaluators (`app_one_tab_pro.py` menu block,
  `kaveh_books1.MainWindow.apply_filters`).

Spreadsheet cells are modelled as `Option String` (`none` is an empty cell,
i.e. a pandas `NaN`); the numeric `book_id` column is modelled as `Option Int`
(`none` is a cell on which Python's `int(...)` coercion fails).  SQLite tables
are lists; committed state is modelled explicitly: each `populate_replace`
variant returns the store that is visible to readers afterwards together with
an optional error.
-/

namespace ArchivedBooks

/-- Python `str.strip()` on the character list of a string: drop leading and
trailing whitespace.  (Used instead of `String.trim`, which does not reduce
in the kernel.) -/
def pyStrip (s : String) : String :=
  ⟨((s.data.dropWhile Char.isWhitespace).reverse.dropWhile Char.isWhitespace).reverse⟩

/-- Lower-casing used to model `case=False` (i.e. `re.IGNORECASE`) matching. -/
def lowerStr (s : String) : String :=
  ⟨s.data.map Char.toLower⟩

/-- One raw spreadsheet row after the `COLUMN_MAP` renaming: the eight mapped
columns.  A text cell is `none` when empty (pandas `NaN`); `book_id` is `some
n` when `int(...)` coercion would yield `n` and `none` when it would fail. -/
structure RawRow where
  book_id : Option Int
  brand : Option String
  model : Option String
  machine_type : Option String
  title : Option String
  language : Option String
  edition_year : Option String
  location : Option String
deriving Repr, DecidableEq

/-- A row of the cleaned dataframe (same shape as `RawRow`; the text columns
have been preprocessed). -/
structure CleanRow where
  book_id : Option Int
  brand : Option String
  model : Option String
  machine_type : Option String
  title : Option String
  language : Option String
  edition_year : Option String
  location : Option String
deriving Repr, DecidableEq

/-- `app_one_tab_pro.py` / `kaveh_books1.py` text-column cleaning:
`df[col].astype(str).str.strip()` turns an empty cell (`NaN`) into the literal
string `"nan"`, strips whitespace, and `replace({'nan': pd.NA})` maps a cell
whose stripped value is exactly `"nan"` back to missing. -/
def cleanCell (c : Option String) : Option String :=
  let s := pyStrip (c.getD "nan")
  if s = "nan" then none else some s

/-- `load_excel_to_df` of `app_one_tab_pro.py` (identical in
`kaveh_books1.py`): clean the five text columns, then
`df['language'].fillna('Unknown')`. -/
def cleanRow (r : RawRow) : CleanRow :=
  { book_id := r.book_id
    brand := cleanCell r.brand
    model := cleanCell r.model
    machine_type := cleanCell r.machine_type
    title := cleanCell r.title
    language := some ((cleanCell r.language).getD "Unknown")
    edition_year := r.edition_year
    location := r.location }

/-- `build_installer.py` text-column cleaning: `astype('string')` keeps missing
values missing (it does **not** produce the literal `"nan"`), `.str.strip()`
strips, and there is no `replace({'nan': pd.NA})` step. -/
def cleanCellInst (c : Option String) : Option String :=
  c.map pyStrip

/-- `load_excel_to_df` of `build_installer.py`: strip the five text columns
(preserving missing values), then `df['language'].fillna('Unknown')`. -/
def cleanRowInst (r : RawRow) : CleanRow :=
  { book_id := r.book_id
    brand := cleanCellInst r.brand
    model := cleanCellInst r.model
    machine_type := cleanCellInst r.machine_type
    title := cleanCellInst r.title
    language := some ((cleanCellInst r.language).getD "Unknown")
    edition_year := r.edition_year
    location := r.location }

/-- A dimension table (`brands`, `machine_types`, `models`, `languages`):
`(id, name)` rows plus the next auto-assigned `INTEGER PRIMARY KEY`. -/
structure DimTable where
  rows : List (Nat × String)
  nextId : Nat
deriving Repr, DecidableEq

namespace DimTable

/-- Freshly created table (SQLite auto ids start at 1). -/
def empty : DimTable := ⟨[], 1⟩

def names (t : DimTable) : List String := t.rows.map (·.2)

/-- `SELECT id FROM {table} WHERE name=?`. -/
def lookupId (t : DimTable) (v : String) : Option Nat :=
  (t.rows.find? (fun p => p.2 = v)).map (·.1)

/-- `SELECT name FROM {table} WHERE id=?` (the join's lookup by primary key). -/
def lookupName (t : DimTable) (i : Nat) : Option String :=
  (t.rows.find? (fun p => p.1 = i)).map (·.2)

/-- `INSERT OR IGNORE INTO {table} (name) VALUES (?)` against the
`name TEXT UNIQUE` constraint. -/
def insertIgnore (t : DimTable) (v : String) : DimTable :=
  if t.rows.any (fun p => p.2 = v) then t
  else ⟨t.rows ++ [(t.nextId, v)], t.nextId + 1⟩

end DimTable

/-- `get_id` of `app_one_tab_pro.py`: insert-or-ignore then select the id.
(The `name is None` / float-`NaN` guard of the Python function never fires on
the string arguments produced by `populate_replace`, whose callers guard with
`pd.notna`; the `none` case is handled in `resolveFK` below.) -/
def getIdApp (t : DimTable) (v : String) : Option Nat × DimTable :=
  let t' := t.insertIgnore v
  (t'.lookupId v, t')

/-- `get_id` of `kaveh_books1.py`: `if not name ...: return None` — the empty
string is falsy, so a blank name yields no row and no id. -/
def getIdKaveh (t : DimTable) (v : String) : Option Nat × DimTable :=
  if v = "" then (none, t) else getIdApp t v

/-- One row of the `books` fact table, in the column order of the
`INSERT INTO books (...)` statement. -/
structure Book where
  book_id : Int
  title : String
  edition_year : Option String
  location : Option String
  brand_id : Option Nat
  model_id : Option Nat
  machine_type_id : Option Nat
  language_id : Option Nat
deriving Repr, DecidableEq

/-- The five-table catalog store (the free-form `meta` table carries no
catalog content and is omitted). -/
structure Store where
  brands : DimTable
  machine_types : DimTable
  models : DimTable
  languages : DimTable
  books : List Book
deriving Repr, DecidableEq

/-- `create_schema(conn, drop=True)`: all tables dropped and recreated. -/
def Store.empty : Store := ⟨.empty, .empty, .empty, .empty, []⟩

/-- `df[col].dropna()`: the non-missing values of one cleaned column. -/
def colVals (df : List CleanRow) (f : CleanRow → Option String) : List String :=
  df.filterMap f

/-- pandas `Series.unique()`: distinct values in first-occurrence order. -/
def uniqueFirst (xs : List String) : List String :=
  xs.foldl (fun acc x => if x ∈ acc then acc else acc ++ [x]) []

/-- Python `sorted(df[col].dropna().unique())`: the distinct values in
ascending string order (code-point lexicographic, as in Python). -/
def sortedUnique (xs : List String) : List String :=
  (uniqueFirst xs).insertionSort (fun a b => a < b ∨ a = b)

/-- The dimension pre-pass of `populate_replace`
(`app_one_tab_pro.py`/`kaveh_books1.py`):
`for v in sorted(df[col].dropna().unique()): get_id(cur, t, v)`. -/
def internList (gid : DimTable → String → Option Nat × DimTable)
    (t : DimTable) (vs : List String) : DimTable :=
  vs.foldl (fun t v => (gid t v).2) t

/-- The whole dimension pre-pass over the four `(table, column)` pairs. -/
def dimsPass (gid : DimTable → String → Option Nat × DimTable)
    (s : Store) (df : List CleanRow) : Store :=
  { s with
    brands := internList gid s.brands (sortedUnique (colVals df (·.brand)))
    machine_types :=
      internList gid s.machine_types (sortedUnique (colVals df (·.machine_type)))
    models := internList gid s.models (sortedUnique (colVals df (·.model)))
    languages := internList gid s.languages (sortedUnique (colVals df (·.language))) }

/-- `get_id(cur, table, r[col]) if pd.notna(r[col]) else None`. -/
def resolveFK (gid : DimTable → String → Option Nat × DimTable)
    (t : DimTable) (c : Option String) : Option Nat × DimTable :=
  match c with
  | none => (none, t)
  | some v => gid t v

/-- Plain `INSERT INTO books (...)` against `book_id INTEGER UNIQUE NOT NULL`. -/
def insertBook (books : List Book) (b : Book) : Except String (List Book) :=
  if books.any (fun b' => b'.book_id = b.book_id) then
    .error "UNIQUE constraint failed: books.book_id"
  else .ok (books ++ [b])

/-- One iteration of the fact loop of `populate_replace`
(`app_one_tab_pro.py`/`kaveh_books1.py`): resolve the four foreign keys, coerce
`int(r['book_id'])`, and insert the book row (`title` is `NOT NULL`). -/
def factStep (gid : DimTable → String → Option Nat × DimTable)
    (s : Store) (r : CleanRow) : Except String Store :=
  let rb := resolveFK gid s.brands r.brand
  let rmt := resolveFK gid s.machine_types r.machine_type
  let rm := resolveFK gid s.models r.model
  let rl := resolveFK gid s.languages r.language
  match r.book_id with
  | none => .error "invalid literal for int() with base 10"
  | some n =>
    match r.title with
    | none => .error "NOT NULL constraint failed: books.title"
    | some ttl =>
      (insertBook s.books
        ⟨n, ttl, r.edition_year, r.location, rb.1, rm.1, rmt.1, rl.1⟩).map
        fun bs =>
          { brands := rb.2, machine_types := rmt.2, models := rm.2,
            languages := rl.2, books := bs }

/-- The fact loop `for _, r in df.iterrows(): ...`; the first failing row
aborts the whole loop with its error. -/
def factPass (gid : DimTable → String → Option Nat × DimTable)
    (s : Store) : List CleanRow → Except String Store
  | [] => .ok s
  | r :: rs => do factPass gid (← factStep gid s r) rs

/-- `populate_replace` of `app_one_tab_pro.py` / `kaveh_books1.py`,
parameterised by the `get_id` variant.  Returns the store committed and
visible to readers afterwards, plus the error when the run failed.
`create_schema(conn, drop=True)` commits the reset, the dimension pre-pass is
followed by `conn.commit()`, and the fact loop is committed only when it
completes — a failure inside it leaves the reset-plus-dimensions state
committed (the uncommitted fact inserts are discarded).  The prior store
`s0` is never consulted. -/
def populateWith (gid : DimTable → String → Option Nat × DimTable)
    (s0 : Store) (df : List CleanRow) : Store × Option String :=
  let s2 := dimsPass gid Store.empty df
  match factPass gid s2 df with
  | .ok s3 => (s3, none)
  | .error e => (s2, some e)

/-- `populate_replace` of `app_one_tab_pro.py` (plain `INSERT`, `get_id`
accepts the empty string). -/
def populateApp (s0 : Store) (df : List CleanRow) : Store × Option String :=
  populateWith getIdApp s0 df

/-- `populate_replace` of `kaveh_books1.py` (same loop; its `get_id` treats a
falsy name as absent). -/
def populateKaveh (s0 : Store) (df : List CleanRow) : Store × Option String :=
  populateWith getIdKaveh s0 df

/-- `executemany("INSERT OR IGNORE INTO {t} (name) VALUES (?)", ...)` over the
distinct values in first-occurrence order (`build_installer.py`). -/
def insertMany (t : DimTable) (vs : List String) : DimTable :=
  vs.foldl DimTable.insertIgnore t

/-- The dimension pass of `build_installer.populate_replace`. -/
def dimsPassInst (s : Store) (df : List CleanRow) : Store :=
  { s with
    brands := insertMany s.brands (uniqueFirst (colVals df (·.brand)))
    machine_types :=
      insertMany s.machine_types (uniqueFirst (colVals df (·.machine_type)))
    models := insertMany s.models (uniqueFirst (colVals df (·.model)))
    languages := insertMany s.languages (uniqueFirst (colVals df (·.language))) }

/-- One tuple of `books_data` in `build_installer.populate_replace`: dictionary
lookups into the freshly selected `name -> id` maps, `int(r['book_id'])`, and
`str(r['title'])` — note `str(pd.NA)` is the literal `"<NA>"`, so a missing
title does not fail here. -/
def buildBookInst (s : Store) (r : CleanRow) : Except String Book :=
  match r.book_id with
  | none => .error "invalid literal for int() with base 10"
  | some n =>
    .ok ⟨n, r.title.getD "<NA>", r.edition_year, r.location,
      r.brand.bind s.brands.lookupId, r.model.bind s.models.lookupId,
      r.machine_type.bind s.machine_types.lookupId,
      r.language.bind s.languages.lookupId⟩

/-- `INSERT OR REPLACE INTO books ...`: a conflicting `book_id` row is deleted
and the new row inserted. -/
def insertOrReplace (bs : List Book) (b : Book) : List Book :=
  (bs.filter (fun b' => ¬ b'.book_id = b.book_id)) ++ [b]

/-- The `for _, r in df.iterrows()` loop building `books_data`: the list of
book tuples in row order; the first `int(...)` failure aborts the build. -/
def buildBooksInst (s : Store) : List CleanRow → Except String (List Book)
  | [] => .ok []
  | r :: rs => do
    let b ← buildBookInst s r
    let bs ← buildBooksInst s rs
    .ok (b :: bs)

/-- The fact pass of `build_installer.populate_replace`: build all of
`books_data` first (any `int(...)` failure aborts), then `executemany` with
`INSERT OR REPLACE`. -/
def factPassInst (s : Store) (df : List CleanRow) : Except String Store := do
  let books ← buildBooksInst s df
  .ok { s with books := books.foldl insertOrReplace s.books }

/-- `populate_replace` of `build_installer.py`: `create_schema(conn,
drop=True)` commits the reset, then `BEGIN TRANSACTION`; on any failure the
transaction (dimensions and facts) is rolled back, leaving the freshly reset
empty store committed.  The prior store `s0` is never consulted. -/
def populateInst (s0 : Store) (df : List CleanRow) : Store × Option String :=
  let s1 := Store.empty
  let s2 := dimsPassInst s1 df
  match factPassInst s2 df with
  | .ok s3 => (s3, none)
  | .error e => (s1, some e)

/-- Import pipeline of `app_one_tab_pro.py`: `load_excel_to_df` then
`populate_replace`. -/
def importApp (s0 : Store) (raws : List RawRow) : Store × Option String :=
  populateApp s0 (raws.map cleanRow)

/-- Import pipeline of `kaveh_books1.py`. -/
def importKaveh (s0 : Store) (raws : List RawRow) : Store × Option String :=
  populateKaveh s0 (raws.map cleanRow)

/-- Import pipeline of `build_installer.py`. -/
def importInst (s0 : Store) (raws : List RawRow) : Store × Option String :=
  populateInst s0 (raws.map cleanRowInst)

/-! ## The denormalized read query (`load_db_to_df`) -/

/-- `ORDER BY b.book_id` (book ids are unique, so the order is determined). -/
def sortByBookId (bs : List Book) : List Book :=
  bs.insertionSort (fun a b => a.book_id ≤ b.book_id)

/-- One row of the denormalized read view of `app_one_tab_pro.py` /
`kaveh_books1.py`, in the `SELECT` column order; a `none` dimension name is a
SQL `NULL` produced by the `LEFT JOIN`. -/
structure ReadRow where
  book_id : Int
  title : String
  brand : Option String
  model : Option String
  machine_type : Option String
  language : Option String
  edition_year : Option String
  location : Option String
deriving Repr, DecidableEq

/-- The `LEFT JOIN` of one book with the four dimension tables (dimension ids
are primary keys, so each join matches at most one row). -/
def joinRow (s : Store) (b : Book) : ReadRow :=
  ⟨b.book_id, b.title,
    b.brand_id.bind s.brands.lookupName,
    b.model_id.bind s.models.lookupName,
    b.machine_type_id.bind s.machine_types.lookupName,
    b.language_id.bind s.languages.lookupName,
    b.edition_year, b.location⟩

/-- `load_db_to_df` of `app_one_tab_pro.py` / `kaveh_books1.py`. -/
def readAll (s : Store) : List ReadRow :=
  (sortByBookId s.books).map (joinRow s)

/-- One row of the read view of `build_installer.py`, whose query wraps every
nullable column in `COALESCE(..., '')`. -/
structure ReadRowI where
  book_id : Int
  title : String
  brand : String
  model : String
  machine_type : String
  language : String
  edition_year : String
  location : String
deriving Repr, DecidableEq

/-- The joined row of `build_installer.load_db_to_df`: `COALESCE` maps a
`NULL` dimension name (or `edition_year`/`location`) to the empty string. -/
def joinRowInst (s : Store) (b : Book) : ReadRowI :=
  ⟨b.book_id, b.title,
    (b.brand_id.bind s.brands.lookupName).getD "",
    (b.model_id.bind s.models.lookupName).getD "",
    (b.machine_type_id.bind s.machine_types.lookupName).getD "",
    (b.language_id.bind s.languages.lookupName).getD "",
    b.edition_year.getD "", b.location.getD ""⟩

/-- `load_db_to_df` of `build_installer.py`. -/
def readAllInst (s : Store) : List ReadRowI :=
  (sortByBookId s.books).map (joinRowInst s)

/-! ## The title search

All three filter variants call `Series.str.contains(q, case=False, na=False)`,
whose default is `regex=True`: the query is handed to Python's `re` module
with `re.IGNORECASE`, not matched as a literal substring.  We model the
regular-expression fragment the module applies to such patterns: literal
characters, `.`, grouping `(...)`, alternation `|` and the quantifiers `*`,
`+`, `?`, with `\` escaping a non-alphanumeric character.  Patterns using
constructs outside this fragment (character classes, counted repeats,
anchors, class escapes) are out of the model; syntactically invalid patterns
(e.g. an unbalanced parenthesis or a dangling quantifier) fail to parse,
mirroring the `re.error` the code raises. -/

/-- Regular expressions (Brzozowski-style semantics). -/
inductive Rx where
  | nil
  | eps
  | chr (c : Char)
  | dot
  | alt (a b : Rx)
  | cat (a b : Rx)
  | star (a : Rx)
deriving Repr, DecidableEq

/-- Does the regex accept the empty string? -/
def nullable : Rx → Bool
  | .nil => false
  | .eps => true
  | .chr _ => false
  | .dot => false
  | .alt a b => nullable a || nullable b
  | .cat a b => nullable a && nullable b
  | .star _ => true

/-- Brzozowski derivative by one character (`.` matches any character except
a newline, as in `re` without `DOTALL`). -/
def deriv (c : Char) : Rx → Rx
  | .nil => .nil
  | .eps => .nil
  | .chr d => if c = d then .eps else .nil
  | .dot => if c = '\n' then .nil else .eps
  | .alt a b => .alt (deriv c a) (deriv c b)
  | .cat a b =>
    if nullable a then .alt (.cat (deriv c a) b) (deriv c b)
    else .cat (deriv c a) b
  | .star a => .cat (deriv c a) (.star a)

/-- Full match of a character list against a regex. -/
def rmatch (r : Rx) : List Char → Bool
  | [] => nullable r
  | c :: cs => rmatch (deriv c r) cs

/-- A regex matching any single character (including newline). -/
def anyChar : Rx := .alt .dot (.chr '\n')

/-- `re.search` semantics for an anchor-free pattern: some substring of the
input matches, i.e. the padded pattern matches the whole input. -/
def rsearch (r : Rx) (s : String) : Bool :=
  rmatch (.cat (.star anyChar) (.cat r (.star anyChar))) s.data

/-- Is this character one of the postfix quantifiers? -/
def isQuant (c : Char) : Bool := c = '*' || c = '+' || c = '?'

mutual

/-- Parse one atom: a group, `.`, an escaped character, or a literal.  A
quantifier with nothing to repeat, an unbalanced `)`, or an out-of-fragment
construct fails. -/
def parseAtom : Nat → List Char → Option (Rx × List Char)
  | 0, _ => none
  | fuel+1, cs =>
    match cs with
    | [] => none
    | c :: rest =>
      if c = '(' then
        match parseAlt fuel rest with
        | some (r, ')' :: rest') => some (r, rest')
        | _ => none
      else if c = '.' then some (.dot, rest)
      else if c = '\\' then
        match rest with
        | [] => none
        | d :: rest' => if d.isAlphanum then none else some (.chr d, rest')
      else if c = '[' ∨ c = '{' ∨ c = '^' ∨ c = '$' then none
      else if c = ')' ∨ c = '|' ∨ isQuant c then none
      else some (.chr c, rest)

/-- Parse a (possibly empty) concatenation of quantified atoms, stopping at
`|`, `)` or the end of the pattern. -/
def parseCat : Nat → List Char → Option (Rx × List Char)
  | 0, _ => none
  | fuel+1, cs =>
    match cs with
    | [] => some (.eps, [])
    | c :: _ =>
      if c = ')' ∨ c = '|' then some (.eps, cs)
      else do
        let (a, cs') ← parseAtom fuel cs
        let q : Rx × List Char :=
          match cs' with
          | '*' :: r => (.star a, r)
          | '+' :: r => (.cat a (.star a), r)
          | '?' :: r => (.alt a .eps, r)
          | _ => (a, cs')
        let (b, cs'') ← parseCat fuel q.2
        some (.cat q.1 b, cs'')

/-- Parse an alternation `cat ('|' cat)*`. -/
def parseAlt : Nat → List Char → Option (Rx × List Char)
  | 0, _ => none
  | fuel+1, cs => do
    let (a, cs') ← parseCat fuel cs
    match cs' with
    | '|' :: rest => do
      let (b, cs'') ← parseAlt fuel rest
      some (.alt a b, cs'')
    | _ => some (a, cs')

end

/-- Compile a pattern string, failing (like `re.compile`) on an invalid
pattern.  The fuel is generous: the recursion consumes a character every
three nested calls at most. -/
def parseRx (q : String) : Option Rx :=
  match parseAlt (4 * (q.length + 1)) q.data with
  | some (r, []) => some r
  | _ => none

/-! ## The filter/search evaluators -/

/-- The "all" sentinel offered as the first option of every dimension
selector. -/
def sentinel : String := "(همه)"

/-- One dimension filter of the `app_one_tab_pro.py` menu block:
`if f != "(همه)": filt = filt[filt[col] == f]` — exact, case-sensitive
equality; a missing (`NaN`) name never equals the selection. -/
def dimFilter (get : ReadRow → Option String) (f : String)
    (rows : List ReadRow) : List ReadRow :=
  if f = sentinel then rows else rows.filter (fun r => get r = some f)

/-- `if q: filt = filt[filt["عنوان"].str.contains(q, case=False, na=False)]`:
an empty query is skipped; otherwise the query is compiled as a
case-insensitive regex (failing on an invalid pattern) and rows whose title
it matches anywhere are kept. -/
def titleFilter (q : String) (rows : List ReadRow) :
    Except String (List ReadRow) :=
  if q = "" then .ok rows
  else
    match parseRx (lowerStr q) with
    | none => .error "re.error: invalid regular expression"
    | some r => .ok (rows.filter (fun row => rsearch r (lowerStr row.title)))

/-- The filter block of `app_one_tab_pro.py` (menu `📚 آرشیو کتاب‌ها`):
brand, machine type, model and language equality filters in that order, then
the title query.  The query string is used exactly as typed (not stripped). -/
def applyFiltersApp (rows : List ReadRow)
    (fBrand fType fModel fLang q : String) : Except String (List ReadRow) :=
  let rows := dimFilter (·.brand) fBrand rows
  let rows := dimFilter (·.machine_type) fType rows
  let rows := dimFilter (·.model) fModel rows
  let rows := dimFilter (·.language) fLang rows
  titleFilter q rows

/-- One dimension filter of `kaveh_books1.MainWindow.apply_filters`:
`if f and f != "(همه)": ...` — an empty selection is also treated as "no
constraint". -/
def dimFilterK (get : ReadRow → Option String) (f : String)
    (rows : List ReadRow) : List ReadRow :=
  if f = "" ∨ f = sentinel then rows else rows.filter (fun r => get r = some f)

/-- `kaveh_books1.MainWindow.apply_filters`: the query is stripped
(`self.search_edt.text().strip()`), the whole filter chain is skipped when
the table is empty (`if not df.empty:`), and the dimension filters tolerate
empty selections.  (`build_installer._apply_filters_async` strips the query
the same way.) -/
def applyFiltersKaveh (rows : List ReadRow)
    (fBrand fType fModel fLang qRaw : String) : Except String (List ReadRow) :=
  let q := pyStrip qRaw
  if rows = [] then .ok rows
  else
    let rows := dimFilterK (·.brand) fBrand rows
    let rows := dimFilterK (·.machine_type) fType rows
    let rows := dimFilterK (·.model) fModel rows
    let rows := dimFilterK (·.language) fLang rows
    titleFilter q rows

/-- Modelled from the spec: "the row's title contains the query as a
case-insensitive substring" — literal (non-regex) substring containment,
the behaviour the spec ascribes to the search step. -/
def containsLit (q s : String) : Bool :=
  decide ((lowerStr q).data <:+: (lowerStr s).data)

/-! ## Specification-side definitions used by the theorems -/

/-- Invariant of a dimension table: names are unique (`name TEXT UNIQUE`),
ids are unique (`INTEGER PRIMARY KEY`), and ids are below the auto counter. -/
def DimTable.ok (t : DimTable) : Prop :=
  t.names.Nodup ∧ (t.rows.map Prod.fst).Nodup ∧ ∀ p ∈ t.rows, p.1 < t.nextId

/-- All four dimension tables of a store are well-formed. -/
def StoreOk (s : Store) : Prop :=
  s.brands.ok ∧ s.machine_types.ok ∧ s.models.ok ∧ s.languages.ok

/-- `gid` only ever adds the name it was given, and only when `P` holds of
it; it preserves table well-formedness; it leaves a table unchanged when the
name is already present; it interns any name satisfying `P`; and it never
drops a name. -/
def GidSound (gid : DimTable → String → Option Nat × DimTable)
    (P : String → Prop) : Prop :=
  (∀ t v w, w ∈ ((gid t v).2).names → w ∈ t.names ∨ (w = v ∧ P v)) ∧
  (∀ t v, DimTable.ok t → DimTable.ok (gid t v).2) ∧
  (∀ t v, v ∈ t.names → (gid t v).2 = t) ∧
  (∀ t v, P v → v ∈ ((gid t v).2).names) ∧
  (∀ t v w, w ∈ t.names → w ∈ ((gid t v).2).names)

/-- The book row the app/kaveh fact loop is expected to insert for a cleaned
row, once all of the row's dimension values are interned: each foreign key
is the id the respective dimension table holds for the value.  (The `getD`
defaults are irrelevant: the lemmas using this assume `book_id` and `title`
are present.) -/
def expectedBook (s : Store) (r : CleanRow) : Book :=
  ⟨r.book_id.getD 0, r.title.getD "", r.edition_year, r.location,
    r.brand.bind s.brands.lookupId, r.model.bind s.models.lookupId,
    r.machine_type.bind s.machine_types.lookupId,
    r.language.bind s.languages.lookupId⟩

/-- A cleaned dataframe is well-formed in the sense of the spec: every row
has a numeric `book_id` and a title, and the `book_id`s are distinct. -/
def wellFormed (df : List CleanRow) : Prop :=
  (∀ r ∈ df, r.book_id.isSome ∧ r.title.isSome) ∧ (df.map (·.book_id)).Nodup

/-- Every row of the cleaned dataframe has all its dimension values present
in the store's dimension tables. -/
def rowValsPresent (s : Store) (r : CleanRow) : Prop :=
  (∀ v, r.brand = some v → v ∈ s.brands.names) ∧
  (∀ v, r.machine_type = some v → v ∈ s.machine_types.names) ∧
  (∀ v, r.model = some v → v ∈ s.models.names) ∧
  (∀ v, r.language = some v → v ∈ s.languages.names)

/-! ### Concrete inputs used by witnesses and counterexamples -/

/-- Spec §8 scenario, row 1: `book_id=1, title="Engine Manual", brand="ABC",
language=null`. -/
def raw1 : RawRow :=
  ⟨some 1, some "ABC", none, some "Engine", some "Engine Manual", none, none, none⟩

/-- Spec §8 scenario, row 2: `book_id=2, title="Pump Guide", brand="XYZ",
language="English"`. -/
def raw2 : RawRow :=
  ⟨some 2, some "XYZ", none, some "Pump", some "Pump Guide", some "English",
    some "2020", some "S1"⟩

/-- A row whose brand cell is whitespace-only. -/
def rawWS : RawRow := ⟨some 1, some "   ", none, none, some "T", some "En", none, none⟩

/-- A row whose brand cell is the literal string `"nan"`. -/
def rawN : RawRow := ⟨some 1, some "nan", none, none, some "T", some "En", none, none⟩

/-- A row whose `book_id` cell is not numeric (`int(...)` fails). -/
def rawBad : RawRow := ⟨none, some "NewBrand", none, none, some "T", some "L", none, none⟩

/-- A populated prior store (one brand, one book) used to exhibit that a
failed import does not restore the prior state. -/
def s0c : Store :=
  ⟨⟨[(1, "Old")], 2⟩, .empty, .empty, .empty,
    [⟨7, "OldTitle", none, none, some 1, none, none, none⟩]⟩

/-- A read row with title `"abc"` used for the search counterexamples. -/
def rowAbc : ReadRow := ⟨1, "abc", none, none, none, none, none, none⟩

/-- A read row with title `"Engine"` used for the whitespace-query
counterexample. -/
def rowEngine : ReadRow := ⟨1, "Engine", none, none, none, none, none, none⟩

/-- A store holding one book all of whose foreign keys are null. -/
def sNull : Store :=
  ⟨.empty, .empty, .empty, .empty, [⟨5, "T", none, none, none, none, none, none⟩]⟩

/-- Two rows sharing `book_id = 5`. -/
def rawD1 : RawRow := ⟨some 5, some "A", none, none, some "T1", none, none, none⟩

/-- Second row with `book_id = 5` (different brand and title). -/
def rawD2 : RawRow := ⟨some 5, some "B", none, none, some "T2", none, none, none⟩

/-! ## Well-formedness of dimension tables -/

theorem DimTable.ok_empty : DimTable.ok DimTable.empty := by
  refine ⟨List.nodup_nil, List.nodup_nil, ?_⟩
  intro p hp; cases hp

theorem DimTable.mem_names {t : DimTable} {w : String} :
    w ∈ t.names ↔ ∃ p ∈ t.rows, p.2 = w := by
  simp [DimTable.names]

theorem DimTable.any_names {t : DimTable} {v : String} :
    (t.rows.any fun p => p.2 = v) = true ↔ v ∈ t.names := by
  simp [DimTable.names]

theorem DimTable.insertIgnore_of_mem {t : DimTable} {v : String}
    (h : v ∈ t.names) : t.insertIgnore v = t := by
  simp [DimTable.insertIgnore, DimTable.any_names.mpr h]

theorem DimTable.mem_names_insertIgnore {t : DimTable} {v w : String} :
    w ∈ (t.insertIgnore v).names ↔ w ∈ t.names ∨ w = v := by
  by_cases h : (t.rows.any fun p => p.2 = v) = true
  · rw [DimTable.insertIgnore, if_pos h]
    exact ⟨Or.inl, fun hw => hw.elim id (fun hw => hw ▸ DimTable.any_names.mp h)⟩
  · rw [DimTable.insertIgnore, if_neg h]
    simp [DimTable.names]

theorem DimTable.ok_insertIgnore {t : DimTable} (hok : t.ok) (v : String) :
    (t.insertIgnore v).ok := by
  by_cases h : (t.rows.any fun p => p.2 = v) = true
  · simpa [DimTable.insertIgnore, h] using hok
  · obtain ⟨hn, hi, hub⟩ := hok
    have hv : v ∉ t.names := fun hv => h (DimTable.any_names.mpr hv)
    refine ⟨?_, ?_, ?_⟩
    · rw [DimTable.insertIgnore, if_neg h]
      show (List.map (fun p => p.2) (t.rows ++ [(t.nextId, v)])).Nodup
      rw [List.map_append, List.nodup_append]
      refine ⟨hn, by simp, ?_⟩
      intro w hw hw'
      simp at hw'
      exact hv (hw' ▸ hw)
    · rw [DimTable.insertIgnore, if_neg h]
      show (List.map Prod.fst (t.rows ++ [(t.nextId, v)])).Nodup
      rw [List.map_append, List.nodup_append]
      refine ⟨hi, by simp, ?_⟩
      intro i hi' hi''
      simp at hi''
      obtain ⟨p, hp, hfst⟩ := List.mem_map.mp hi'
      subst hi''
      exact absurd (hub p hp) (by omega)
    · intro p hp
      simp only [DimTable.insertIgnore, if_neg h, List.mem_append,
        List.mem_singleton] at hp ⊢
      rcases hp with hp | hp
      · exact Nat.lt_succ_of_lt (hub p hp)
      · simp [hp]

/-- In a list of pairs with unique keys, `find?` by a member's key returns
that member. -/
theorem find?_fst_eq {l : List (Nat × String)}
    (hnd : (l.map Prod.fst).Nodup) {p : Nat × String} (hm : p ∈ l) :
    l.find? (fun q => q.1 = p.1) = some p := by
  induction l with
  | nil => cases hm
  | cons a tl ih =>
    rw [List.map_cons, List.nodup_cons] at hnd
    rcases List.mem_cons.mp hm with h | h
    · subst h
      exact List.find?_cons_of_pos _ (by simp)
    · have hne : ¬ a.1 = p.1 := by
        intro he
        exact hnd.1 (he ▸ List.mem_map.mpr ⟨p, h, rfl⟩)
      rw [List.find?_cons_of_neg _ (by simpa using hne)]
      exact ih hnd.2 h

theorem DimTable.lookupId_some {t : DimTable} {v : String} (h : v ∈ t.names) :
    ∃ i, t.lookupId v = some i ∧ (i, v) ∈ t.rows := by
  obtain ⟨p, hp, hpv⟩ := DimTable.mem_names.mp h
  have : (t.rows.find? fun q => q.2 = v).isSome := by
    rw [List.find?_isSome]
    exact ⟨p, hp, by simp [hpv]⟩
  obtain ⟨q, hq⟩ := Option.isSome_iff_exists.mp this
  have hqv : q.2 = v := by simpa using List.find?_some hq
  refine ⟨q.1, ?_, ?_⟩
  · simp [DimTable.lookupId, hq]
  · have := List.mem_of_find?_eq_some hq
    rwa [show (q.1, v) = q by rw [← hqv]] at *

theorem DimTable.lookupName_of_mem {t : DimTable} (hok : t.ok)
    {i : Nat} {v : String} (h : (i, v) ∈ t.rows) :
    t.lookupName i = some v := by
  rw [DimTable.lookupName, find?_fst_eq hok.2.1 h]; rfl

/-- Looking a present name up and joining back returns the name itself. -/
theorem DimTable.lookup_roundtrip {t : DimTable} (hok : t.ok) {v : String}
    (h : v ∈ t.names) :
    ∃ i, t.lookupId v = some i ∧ t.lookupName i = some v := by
  obtain ⟨i, hid, hmem⟩ := DimTable.lookupId_some h
  exact ⟨i, hid, DimTable.lookupName_of_mem hok hmem⟩

theorem getIdApp_of_mem {t : DimTable} {v : String} (h : v ∈ t.names) :
    getIdApp t v = (t.lookupId v, t) := by
  rw [getIdApp, DimTable.insertIgnore_of_mem h]

theorem getIdKaveh_of_mem {t : DimTable} {v : String} (h : v ∈ t.names) :
    getIdKaveh t v = (t.lookupId v, t) ∨ (v = "" ∧ getIdKaveh t v = (none, t)) := by
  by_cases hv : v = ""
  · exact Or.inr ⟨hv, by simp [getIdKaveh, hv]⟩
  · exact Or.inl (by rw [getIdKaveh, if_neg hv]; exact getIdApp_of_mem h)

/-! ### Soundness of the two `get_id` variants -/

theorem gidSound_app : GidSound getIdApp (fun _ => True) := by
  refine ⟨?_, ?_, ?_, ?_, ?_⟩
  · intro t v w hw
    rcases DimTable.mem_names_insertIgnore.mp hw with h | h
    · exact Or.inl h
    · exact Or.inr ⟨h, trivial⟩
  · intro t v hok; exact DimTable.ok_insertIgnore hok v
  · intro t v hv; rw [getIdApp, DimTable.insertIgnore_of_mem hv]
  · intro t v _
    exact DimTable.mem_names_insertIgnore.mpr (Or.inr rfl)
  · intro t v w hw
    exact DimTable.mem_names_insertIgnore.mpr (Or.inl hw)

theorem gidSound_kaveh : GidSound getIdKaveh (fun v => v ≠ "") := by
  refine ⟨?_, ?_, ?_, ?_, ?_⟩
  · intro t v w hw
    by_cases hv : v = ""
    · simp [getIdKaveh, hv] at hw; exact Or.inl hw
    · rw [getIdKaveh, if_neg hv] at hw
      rcases DimTable.mem_names_insertIgnore.mp hw with h | h
      · exact Or.inl h
      · exact Or.inr ⟨h, hv⟩
  · intro t v hok
    by_cases hv : v = ""
    · simpa [getIdKaveh, hv] using hok
    · rw [getIdKaveh, if_neg hv]; exact DimTable.ok_insertIgnore hok v
  · intro t v hv
    by_cases hv' : v = ""
    · simp [getIdKaveh, hv']
    · rw [getIdKaveh, if_neg hv', getIdApp, DimTable.insertIgnore_of_mem hv]
  · intro t v hv
    rw [getIdKaveh, if_neg hv]
    exact DimTable.mem_names_insertIgnore.mpr (Or.inr rfl)
  · intro t v w hw
    by_cases hv : v = ""
    · simpa [getIdKaveh, hv] using hw
    · rw [getIdKaveh, if_neg hv]
      exact DimTable.mem_names_insertIgnore.mpr (Or.inl hw)

/-! ### The dimension pre-pass -/

theorem mem_uniqueFirst {xs : List String} {w : String} :
    w ∈ uniqueFirst xs ↔ w ∈ xs := by
  suffices h : ∀ acc, w ∈ xs.foldl
      (fun acc x => if x ∈ acc then acc else acc ++ [x]) acc ↔ w ∈ acc ∨ w ∈ xs by
    simpa using h []
  induction xs with
  | nil => intro acc; simp
  | cons x tl ih =>
    intro acc
    rw [List.foldl_cons]
    by_cases hx : x ∈ acc
    · rw [if_pos hx, ih]
      constructor
      · rintro (h | h)
        · exact Or.inl h
        · exact Or.inr (List.mem_cons_of_mem _ h)
      · rintro (h | h)
        · exact Or.inl h
        · rcases List.mem_cons.mp h with rfl | h
          · exact Or.inl hx
          · exact Or.inr h
    · rw [if_neg hx, ih]
      simp only [List.mem_append, List.mem_singleton, List.mem_cons]
      tauto

theorem mem_sortedUnique {xs : List String} {w : String} :
    w ∈ sortedUnique xs ↔ w ∈ xs := by
  rw [sortedUnique, (List.perm_insertionSort _ _).mem_iff, mem_uniqueFirst]

theorem internList_names {gid} {P : String → Prop} (hg : GidSound gid P)
    {t : DimTable} {vs : List String} {w : String}
    (h : w ∈ (internList gid t vs).names) :
    w ∈ t.names ∨ (w ∈ vs ∧ P w) := by
  induction vs generalizing t with
  | nil => exact Or.inl h
  | cons v tl ih =>
    have h0 : w ∈ (internList gid ((gid t v).2) tl).names := h
    rcases ih h0 with h' | h'
    · rcases hg.1 t v w h' with h'' | h''
      · exact Or.inl h''
      · exact Or.inr ⟨by simp [h''.1], h''.1 ▸ h''.2⟩
    · exact Or.inr ⟨List.mem_cons_of_mem _ h'.1, h'.2⟩

theorem internList_mem {gid} {P : String → Prop} (hg : GidSound gid P)
    {t : DimTable} {vs : List String} {w : String} :
    w ∈ t.names ∨ (w ∈ vs ∧ P w) → w ∈ (internList gid t vs).names := by
  induction vs generalizing t with
  | nil =>
    rintro (h | h)
    · exact h
    · cases h.1
  | cons v tl ih =>
    rintro (h | ⟨hmem, hP⟩)
    · exact ih (Or.inl (hg.2.2.2.2 t v w h))
    · rcases List.mem_cons.mp hmem with rfl | hmem'
      · exact ih (Or.inl (hg.2.2.2.1 t w hP))
      · exact ih (Or.inr ⟨hmem', hP⟩)

theorem internList_ok {gid} {P : String → Prop} (hg : GidSound gid P)
    {t : DimTable} (hok : t.ok) (vs : List String) :
    (internList gid t vs).ok := by
  induction vs generalizing t with
  | nil => exact hok
  | cons v tl ih => exact ih (hg.2.1 t v hok)

/-! ### The dimension pass of `populate_replace` -/

theorem dimsPass_books (gid) (s : Store) (df : List CleanRow) :
    (dimsPass gid s df).books = s.books := rfl

theorem storeOk_dimsPass {gid} {P : String → Prop} (hg : GidSound gid P)
    {s : Store} (hok : StoreOk s) (df : List CleanRow) :
    StoreOk (dimsPass gid s df) :=
  ⟨internList_ok hg hok.1 _, internList_ok hg hok.2.1 _,
    internList_ok hg hok.2.2.1 _, internList_ok hg hok.2.2.2 _⟩

theorem storeOk_empty : StoreOk Store.empty :=
  ⟨DimTable.ok_empty, DimTable.ok_empty, DimTable.ok_empty, DimTable.ok_empty⟩

/-- After the dimension pass from a reset store, every column value
satisfying `P` is present in its dimension table. -/
theorem dimsPass_present {gid} {P : String → Prop} (hg : GidSound gid P)
    (df : List CleanRow) {r : CleanRow} (hr : r ∈ df) :
    (∀ v, r.brand = some v → P v →
      v ∈ (dimsPass gid Store.empty df).brands.names) ∧
    (∀ v, r.machine_type = some v → P v →
      v ∈ (dimsPass gid Store.empty df).machine_types.names) ∧
    (∀ v, r.model = some v → P v →
      v ∈ (dimsPass gid Store.empty df).models.names) ∧
    (∀ v, r.language = some v → P v →
      v ∈ (dimsPass gid Store.empty df).languages.names) := by
  refine ⟨fun v hv hP => ?_, fun v hv hP => ?_, fun v hv hP => ?_, fun v hv hP => ?_⟩
  all_goals
    refine internList_mem hg (Or.inr ⟨mem_sortedUnique.mpr ?_, hP⟩)
    exact List.mem_filterMap.mpr ⟨r, hr, hv⟩

/-- Conversely, every name in a dimension table after the pass from a reset
store is a column value satisfying `P`. -/
theorem dimsPass_names {gid} {P : String → Prop} (hg : GidSound gid P)
    (df : List CleanRow) :
    (∀ w, w ∈ (dimsPass gid Store.empty df).brands.names →
      w ∈ colVals df (·.brand) ∧ P w) ∧
    (∀ w, w ∈ (dimsPass gid Store.empty df).machine_types.names →
      w ∈ colVals df (·.machine_type) ∧ P w) ∧
    (∀ w, w ∈ (dimsPass gid Store.empty df).models.names →
      w ∈ colVals df (·.model) ∧ P w) ∧
    (∀ w, w ∈ (dimsPass gid Store.empty df).languages.names →
      w ∈ colVals df (·.language) ∧ P w) := by
  refine ⟨fun w hw => ?_, fun w hw => ?_, fun w hw => ?_, fun w hw => ?_⟩
  all_goals
    rcases internList_names hg hw with h | h
    · simp [Store.empty, DimTable.empty, DimTable.names] at h
    · exact ⟨mem_sortedUnique.mp h.1, h.2⟩

/-! ### The fact pass of `populate_replace` -/

theorem resolveFK_names {gid} {P : String → Prop} (hg : GidSound gid P)
    {t : DimTable} {c : Option String} {w : String}
    (h : w ∈ ((resolveFK gid t c).2).names) :
    w ∈ t.names ∨ (c = some w ∧ P w) := by
  cases c with
  | none => exact Or.inl h
  | some v =>
    rcases hg.1 t v w h with h' | h'
    · exact Or.inl h'
    · exact Or.inr ⟨by rw [h'.1], h'.1 ▸ h'.2⟩

theorem resolveFK_ok {gid} {P : String → Prop} (hg : GidSound gid P)
    {t : DimTable} (hok : t.ok) (c : Option String) :
    ((resolveFK gid t c).2).ok := by
  cases c with
  | none => exact hok
  | some v => exact hg.2.1 t v hok

/-- When the value is already interned (or absent), `resolveFK` with the
app's `get_id` is a pure lookup that leaves the table unchanged. -/
theorem resolveFK_app_of_present {t : DimTable} {c : Option String}
    (h : ∀ v, c = some v → v ∈ t.names) :
    resolveFK getIdApp t c = (c.bind t.lookupId, t) := by
  cases c with
  | none => rfl
  | some v =>
    rw [resolveFK, getIdApp_of_mem (h v rfl)]
    rfl

/-- Structure of a successful `factStep`: one book is appended whose
`book_id` is the row's coerced id and is fresh, and each dimension table is
the result of its `resolveFK`. -/
theorem factStep_books {gid} {s : Store} {r : CleanRow} {s' : Store}
    (h : factStep gid s r = .ok s') :
    ∃ b : Book, s'.books = s.books ++ [b] ∧ some b.book_id = r.book_id ∧
      (∀ b' ∈ s.books, ¬ b'.book_id = b.book_id) ∧
      s'.brands = (resolveFK gid s.brands r.brand).2 ∧
      s'.machine_types = (resolveFK gid s.machine_types r.machine_type).2 ∧
      s'.models = (resolveFK gid s.models r.model).2 ∧
      s'.languages = (resolveFK gid s.languages r.language).2 := by
  cases hbid : r.book_id with
  | none => simp [factStep, hbid] at h
  | some n =>
    cases ht : r.title with
    | none => simp [factStep, hbid, ht] at h
    | some ttl =>
      simp only [factStep, hbid, ht] at h
      by_cases hany : (s.books.any fun b' => b'.book_id = n) = true
      · simp [insertBook, hany, Except.map] at h
      · have hfresh : ∀ b' ∈ s.books, ¬ b'.book_id = n := by
          intro b' hb'
          have h2 := List.any_eq_false.mp (Bool.eq_false_iff.mpr hany) b' hb'
          simpa using h2
        rw [insertBook, if_neg hany] at h
        simp only [Except.map] at h
        obtain rfl := Except.ok.inj h
        exact ⟨_, rfl, rfl, hfresh, rfl, rfl, rfl, rfl⟩

/-- Book ids accumulated by a successful fact pass: the prior ids followed by
the rows' coerced ids, and distinctness is preserved. -/
theorem factPass_ids {gid} {df : List CleanRow} {s s' : Store}
    (h : factPass gid s df = .ok s') :
    s'.books.map (fun b => some b.book_id) =
      s.books.map (fun b => some b.book_id) ++ df.map (·.book_id) ∧
    ((s.books.map (fun b => b.book_id)).Nodup →
      (s'.books.map (fun b => b.book_id)).Nodup) := by
  induction df generalizing s with
  | nil =>
    obtain rfl := Except.ok.inj h
    exact ⟨by simp, id⟩
  | cons r rs ih =>
    rw [factPass] at h
    cases hstep : factStep gid s r with
    | error e => rw [hstep] at h; simp [Bind.bind, Except.bind] at h
    | ok s1 =>
      rw [hstep] at h
      simp only [Bind.bind, Except.bind] at h
      obtain ⟨b, hb, hid, hfresh, -⟩ := factStep_books hstep
      obtain ⟨hmap, hnd⟩ := ih h
      constructor
      · rw [hmap, hb, List.map_append, List.map_cons]
        simp [hid]
      · intro hs
        refine hnd ?_
        rw [hb, List.map_append, List.nodup_append]
        refine ⟨hs, by simp, ?_⟩
        intro x hx hx'
        simp at hx'
        obtain ⟨b', hb', hbeq⟩ := List.mem_map.mp hx
        exact hfresh b' hb' (by rw [hbeq, hx'])

/-- A successful fact pass preserves well-formedness of all four dimension
tables. -/
theorem factPass_storeOk {gid} {P : String → Prop} (hg : GidSound gid P)
    {df : List CleanRow} {s s' : Store}
    (hok : StoreOk s) (h : factPass gid s df = .ok s') : StoreOk s' := by
  induction df generalizing s with
  | nil => obtain rfl := Except.ok.inj h; exact hok
  | cons r rs ih =>
    rw [factPass] at h
    cases hstep : factStep gid s r with
    | error e => rw [hstep] at h; simp [Bind.bind, Except.bind] at h
    | ok s1 =>
      rw [hstep] at h
      simp only [Bind.bind, Except.bind] at h
      obtain ⟨b, -, -, -, h1, h2, h3, h4⟩ := factStep_books hstep
      refine ih ⟨?_, ?_, ?_, ?_⟩ h
      · rw [h1]; exact resolveFK_ok hg hok.1 _
      · rw [h2]; exact resolveFK_ok hg hok.2.1 _
      · rw [h3]; exact resolveFK_ok hg hok.2.2.1 _
      · rw [h4]; exact resolveFK_ok hg hok.2.2.2 _

/-- Every dimension name present after a successful fact pass was present
before it or is a column value of some processed row satisfying `P`. -/
theorem factPass_names {gid} {P : String → Prop} (hg : GidSound gid P)
    {df : List CleanRow} {s s' : Store} (h : factPass gid s df = .ok s') :
    (∀ w ∈ s'.brands.names,
      w ∈ s.brands.names ∨ ∃ r ∈ df, r.brand = some w ∧ P w) ∧
    (∀ w ∈ s'.machine_types.names,
      w ∈ s.machine_types.names ∨ ∃ r ∈ df, r.machine_type = some w ∧ P w) ∧
    (∀ w ∈ s'.models.names,
      w ∈ s.models.names ∨ ∃ r ∈ df, r.model = some w ∧ P w) ∧
    (∀ w ∈ s'.languages.names,
      w ∈ s.languages.names ∨ ∃ r ∈ df, r.language = some w ∧ P w) := by
  induction df generalizing s with
  | nil =>
    obtain rfl := Except.ok.inj h
    exact ⟨fun w hw => Or.inl hw, fun w hw => Or.inl hw,
      fun w hw => Or.inl hw, fun w hw => Or.inl hw⟩
  | cons r rs ih =>
    rw [factPass] at h
    cases hstep : factStep gid s r with
    | error e => rw [hstep] at h; simp [Bind.bind, Except.bind] at h
    | ok s1 =>
      rw [hstep] at h
      simp only [Bind.bind, Except.bind] at h
      obtain ⟨b, -, -, -, h1, h2, h3, h4⟩ := factStep_books hstep
      obtain ⟨ihb, ihmt, ihm, ihl⟩ := ih h
      refine ⟨fun w hw => ?_, fun w hw => ?_, fun w hw => ?_, fun w hw => ?_⟩
      · rcases ihb w hw with hin | ⟨r', hr', hv, hP⟩
        · rw [h1] at hin
          rcases resolveFK_names hg hin with hin' | hin'
          · exact Or.inl hin'
          · exact Or.inr ⟨r, List.mem_cons_self r rs, hin'⟩
        · exact Or.inr ⟨r', List.mem_cons_of_mem _ hr', hv, hP⟩
      · rcases ihmt w hw with hin | ⟨r', hr', hv, hP⟩
        · rw [h2] at hin
          rcases resolveFK_names hg hin with hin' | hin'
          · exact Or.inl hin'
          · exact Or.inr ⟨r, List.mem_cons_self r rs, hin'⟩
        · exact Or.inr ⟨r', List.mem_cons_of_mem _ hr', hv, hP⟩
      · rcases ihm w hw with hin | ⟨r', hr', hv, hP⟩
        · rw [h3] at hin
          rcases resolveFK_names hg hin with hin' | hin'
          · exact Or.inl hin'
          · exact Or.inr ⟨r, List.mem_cons_self r rs, hin'⟩
        · exact Or.inr ⟨r', List.mem_cons_of_mem _ hr', hv, hP⟩
      · rcases ihl w hw with hin | ⟨r', hr', hv, hP⟩
        · rw [h4] at hin
          rcases resolveFK_names hg hin with hin' | hin'
          · exact Or.inl hin'
          · exact Or.inr ⟨r, List.mem_cons_self r rs, hin'⟩
        · exact Or.inr ⟨r', List.mem_cons_of_mem _ hr', hv, hP⟩

/-! ### The app fact loop as an equation (round trip) -/

/-- When all of a row's dimension values are interned, its `book_id` is
numeric and fresh, and its title is present, the app's `factStep` appends
exactly the expected book and leaves the dimension tables unchanged. -/
theorem factStep_app_eq {s : Store} {r : CleanRow}
    (hv : rowValsPresent s r) {n : Int} {ttl : String}
    (hn : r.book_id = some n) (ht : r.title = some ttl)
    (hfresh : ∀ b' ∈ s.books, ¬ b'.book_id = n) :
    factStep getIdApp s r = .ok { s with books := s.books ++ [expectedBook s r] } := by
  have hany : ¬ (s.books.any fun b' => b'.book_id = n) = true := by
    rw [List.any_eq_true]
    rintro ⟨b', hb', hbeq⟩
    exact hfresh b' hb' (by simpa using hbeq)
  simp only [factStep, hn, ht,
    resolveFK_app_of_present hv.1, resolveFK_app_of_present hv.2.1,
    resolveFK_app_of_present hv.2.2.1, resolveFK_app_of_present hv.2.2.2]
  rw [insertBook, if_neg hany]
  simp only [Except.map]
  congr 1
  simp [expectedBook, hn, ht]

/-- The app fact loop, run after all dimension values are interned, appends
exactly the expected book rows. -/
theorem factPass_app_eq {df : List CleanRow} (s : Store)
    (hv : ∀ r ∈ df, rowValsPresent s r ∧ r.book_id.isSome ∧ r.title.isSome)
    (hnd : ((s.books ++ df.map (expectedBook s)).map (fun b => b.book_id)).Nodup) :
    factPass getIdApp s df = .ok { s with books := s.books ++ df.map (expectedBook s) } := by
  induction df generalizing s with
  | nil =>
    simp only [List.map_nil, List.append_nil]
    rfl
  | cons r rs ih =>
    obtain ⟨hrv, hbid, httl⟩ := hv r (List.mem_cons_self r rs)
    have hrest : ∀ r' ∈ rs, rowValsPresent s r' ∧ r'.book_id.isSome ∧ r'.title.isSome :=
      fun r' hr' => hv r' (List.mem_cons_of_mem _ hr')
    obtain ⟨n, hn⟩ := Option.isSome_iff_exists.mp hbid
    obtain ⟨ttl, ht⟩ := Option.isSome_iff_exists.mp httl
    have hfresh : ∀ b' ∈ s.books, ¬ b'.book_id = n := by
      intro b' hb' hbeq
      rw [List.map_append, List.nodup_append] at hnd
      have hmem1 : n ∈ s.books.map (fun b => b.book_id) := by
        rw [← hbeq]; exact List.mem_map.mpr ⟨b', hb', rfl⟩
      have hmem2 : n ∈ ((r :: rs).map (expectedBook s)).map (fun b => b.book_id) := by
        refine List.mem_map.mpr ⟨expectedBook s r,
          List.mem_map.mpr ⟨r, List.mem_cons_self r rs, rfl⟩, ?_⟩
        simp [expectedBook, hn]
      exact hnd.2.2 hmem1 hmem2
    rw [factPass, factStep_app_eq hrv hn ht hfresh]
    simp only [Bind.bind, Except.bind]
    set s1 : Store := { s with books := s.books ++ [expectedBook s r] } with hs1
    have hexp : ∀ r' : CleanRow, expectedBook s1 r' = expectedBook s r' := fun _ => rfl
    have hv1 : ∀ r' ∈ rs, rowValsPresent s1 r' ∧ r'.book_id.isSome ∧ r'.title.isSome := by
      intro r' hr'
      exact hrest r' hr'
    have hnd1 : ((s1.books ++ rs.map (expectedBook s1)).map (fun b => b.book_id)).Nodup := by
      show (((s.books ++ [expectedBook s r]) ++ rs.map (expectedBook s)).map (fun b => b.book_id)).Nodup
      rw [List.append_assoc]
      simpa using hnd
    rw [ih s1 hv1 hnd1]
    show Except.ok _ = Except.ok _
    congr 1
    show ({ s with books := (s.books ++ [expectedBook s r]) ++ rs.map (expectedBook s) } : Store) = _
    rw [List.append_assoc]
    rfl

/-! ### The read query -/

instance : IsTotal Book (fun a b => a.book_id ≤ b.book_id) :=
  ⟨fun a b => Int.le_total a.book_id b.book_id⟩

instance : IsTrans Book (fun a b => a.book_id ≤ b.book_id) :=
  ⟨fun _ _ _ h h' => le_trans h h'⟩

theorem sortByBookId_perm (bs : List Book) : (sortByBookId bs).Perm bs :=
  List.perm_insertionSort _ bs

theorem length_readAll (s : Store) : (readAll s).length = s.books.length := by
  rw [readAll, List.length_map, (sortByBookId_perm s.books).length_eq]

theorem length_readAllInst (s : Store) : (readAllInst s).length = s.books.length := by
  rw [readAllInst, List.length_map, (sortByBookId_perm s.books).length_eq]

theorem joinRow_mem_readAll {s : Store} {b : Book} (hb : b ∈ s.books) :
    joinRow s b ∈ readAll s :=
  List.mem_map.mpr ⟨b, (sortByBookId_perm s.books).mem_iff.mpr hb, rfl⟩

theorem joinRowInst_mem_readAllInst {s : Store} {b : Book} (hb : b ∈ s.books) :
    joinRowInst s b ∈ readAllInst s :=
  List.mem_map.mpr ⟨b, (sortByBookId_perm s.books).mem_iff.mpr hb, rfl⟩

theorem readAll_sorted (s : Store) :
    ((readAll s).map ReadRow.book_id).Pairwise (· ≤ ·) := by
  rw [readAll, List.map_map]
  have hs : (sortByBookId s.books).Pairwise (fun a b => a.book_id ≤ b.book_id) :=
    List.sorted_insertionSort _ s.books
  exact hs.map _ (fun a b h => h)

theorem readAllInst_sorted (s : Store) :
    ((readAllInst s).map ReadRowI.book_id).Pairwise (· ≤ ·) := by
  rw [readAllInst, List.map_map]
  have hs : (sortByBookId s.books).Pairwise (fun a b => a.book_id ≤ b.book_id) :=
    List.sorted_insertionSort _ s.books
  exact hs.map _ (fun a b h => h)

/-- Resolving a present (or absent) value to its id and joining the name
back is the identity. -/
theorem bind_lookup_roundtrip {t : DimTable} (hok : t.ok) {c : Option String}
    (h : ∀ v, c = some v → v ∈ t.names) :
    (c.bind t.lookupId).bind t.lookupName = c := by
  cases c with
  | none => rfl
  | some v =>
    obtain ⟨i, hid, hname⟩ := DimTable.lookup_roundtrip hok (h v rfl)
    simp [Option.bind, hid, hname]

/-! ### `populate_replace` on well-formed input -/

theorem nodup_expected_ids {df : List CleanRow} (s : Store) (hwf : wellFormed df) :
    ((df.map (expectedBook s)).map (fun b => b.book_id)).Nodup := by
  rw [List.map_map]
  have heq : df.map ((fun b => b.book_id) ∘ expectedBook s) =
      (df.map (·.book_id)).map (fun o => o.getD 0) := by
    rw [List.map_map]; rfl
  rw [heq]
  refine List.Nodup.map_on ?_ hwf.2
  intro o1 h1 o2 h2 he
  obtain ⟨r1, hr1, hb1⟩ := List.mem_map.mp h1
  obtain ⟨r2, hr2, hb2⟩ := List.mem_map.mp h2
  have hso1 : o1.isSome := by rw [← hb1]; exact (hwf.1 r1 hr1).1
  have hso2 : o2.isSome := by rw [← hb2]; exact (hwf.1 r2 hr2).1
  obtain ⟨n1, hn1⟩ := Option.isSome_iff_exists.mp hso1
  obtain ⟨n2, hn2⟩ := Option.isSome_iff_exists.mp hso2
  rw [hn1, hn2] at he ⊢
  simpa using he

/-- `populate_replace` of `app_one_tab_pro.py` on a well-formed cleaned
dataframe: it succeeds and the committed store is the reset store with the
dimension pre-pass applied and exactly the expected book per row. -/
theorem populateApp_wf {df : List CleanRow} (s0 : Store) (hwf : wellFormed df) :
    populateApp s0 df =
      ({ dimsPass getIdApp Store.empty df with
          books := df.map (expectedBook (dimsPass getIdApp Store.empty df)) }, none) := by
  set s2 := dimsPass getIdApp Store.empty df with hs2
  have hbooks : s2.books = [] := rfl
  have hv : ∀ r ∈ df, rowValsPresent s2 r ∧ r.book_id.isSome ∧ r.title.isSome := by
    intro r hr
    obtain ⟨hb, hmt, hm, hl⟩ := dimsPass_present gidSound_app df hr
    exact ⟨⟨fun v hv => hb v hv trivial, fun v hv => hmt v hv trivial,
      fun v hv => hm v hv trivial, fun v hv => hl v hv trivial⟩,
      (hwf.1 r hr).1, (hwf.1 r hr).2⟩
  have hnd : ((s2.books ++ df.map (expectedBook s2)).map (fun b => b.book_id)).Nodup := by
    rw [hbooks, List.nil_append]
    exact nodup_expected_ids s2 hwf
  have hfp := factPass_app_eq s2 hv hnd
  rw [hbooks, List.nil_append] at hfp
  rw [populateApp, populateWith, ← hs2, hfp]

/-! ## Claim theorems -/

/-- **C5**: importing a spreadsheet with N well-formed rows (distinct numeric
`book_id`s, title present) through `load_excel_to_df` + `populate_replace` of
`app_one_tab_pro.py` succeeds, and reading the store back with
`load_db_to_df` yields exactly N denormalized rows; for each source row there
is a read row whose `book_id`, `title`, four dimension names, edition year
and location equal the cleaned source values. -/
theorem c5_roundtrip (s0 : Store) (raws : List RawRow)
    (hwf : wellFormed (raws.map cleanRow)) :
    (importApp s0 raws).2 = none ∧
    (readAll (importApp s0 raws).1).length = raws.length ∧
    ∀ raw ∈ raws, ∃ row ∈ readAll (importApp s0 raws).1,
      some row.book_id = (cleanRow raw).book_id ∧
      some row.title = (cleanRow raw).title ∧
      row.brand = (cleanRow raw).brand ∧
      row.model = (cleanRow raw).model ∧
      row.machine_type = (cleanRow raw).machine_type ∧
      row.language = (cleanRow raw).language ∧
      row.edition_year = raw.edition_year ∧
      row.location = raw.location := by
  set df := raws.map cleanRow with hdf
  set s2 := dimsPass getIdApp Store.empty df with hs2
  have hres : importApp s0 raws =
      ({ s2 with books := df.map (expectedBook s2) }, none) := by
    rw [importApp, ← hdf, populateApp_wf s0 hwf, ← hs2]
  set s3 : Store := { s2 with books := df.map (expectedBook s2) } with hs3
  have hok2 : StoreOk s2 := storeOk_dimsPass gidSound_app storeOk_empty df
  refine ⟨by rw [hres], ?_, ?_⟩
  · rw [hres, length_readAll]
    show (df.map (expectedBook s2)).length = raws.length
    rw [List.length_map, hdf, List.length_map]
  · intro raw hmem
    set r := cleanRow raw with hr
    have hrdf : r ∈ df := List.mem_map.mpr ⟨raw, hmem, rfl⟩
    have hb : expectedBook s2 r ∈ s3.books := List.mem_map.mpr ⟨r, hrdf, rfl⟩
    obtain ⟨hbid, httl⟩ := hwf.1 r hrdf
    obtain ⟨n, hn⟩ := Option.isSome_iff_exists.mp hbid
    obtain ⟨ttl, ht⟩ := Option.isSome_iff_exists.mp httl
    obtain ⟨hpb, hpmt, hpm, hpl⟩ := dimsPass_present gidSound_app df hrdf
    refine ⟨joinRow s3 (expectedBook s2 r), ?_, ?_, ?_, ?_, ?_, ?_, ?_, rfl, rfl⟩
    · rw [hres]; exact joinRow_mem_readAll hb
    · show some ((expectedBook s2 r).book_id) = r.book_id
      rw [hn]; simp [expectedBook, hn]
    · show some ((expectedBook s2 r).title) = r.title
      rw [ht]; simp [expectedBook, ht]
    · show ((expectedBook s2 r).brand_id).bind s3.brands.lookupName = r.brand
      exact bind_lookup_roundtrip hok2.1 (fun v hv => hpb v hv trivial)
    · show ((expectedBook s2 r).model_id).bind s3.models.lookupName = r.model
      exact bind_lookup_roundtrip hok2.2.2.1 (fun v hv => hpm v hv trivial)
    · show ((expectedBook s2 r).machine_type_id).bind s3.machine_types.lookupName = r.machine_type
      exact bind_lookup_roundtrip hok2.2.1 (fun v hv => hpmt v hv trivial)
    · show ((expectedBook s2 r).language_id).bind s3.languages.lookupName = r.language
      exact bind_lookup_roundtrip hok2.2.2.2 (fun v hv => hpl v hv trivial)

/-- Witness for C5 at the spec §8 scenario spreadsheet. -/
theorem c5_roundtrip_witness :
    wellFormed ([raw1, raw2].map cleanRow) ∧
    (importApp Store.empty [raw1, raw2]).2 = none ∧
    (readAll (importApp Store.empty [raw1, raw2]).1).length = 2 :=
  ⟨by unfold wellFormed; exact ⟨by decide, by decide⟩,
    (c5_roundtrip Store.empty [raw1, raw2]
      (by unfold wellFormed; exact ⟨by decide, by decide⟩)).1,
    (c5_roundtrip Store.empty [raw1, raw2]
      (by unfold wellFormed; exact ⟨by decide, by decide⟩)).2.1⟩

/-- **C10**: a source row whose language cell is absent (empty or the `"nan"`
artifact, i.e. its cleaned value is missing) is imported with language
`"Unknown"`: the `languages` dimension table holds an ordinary `"Unknown"`
row, the book's `language_id` references it, and the read-back row's language
is `"Unknown"`. -/
theorem c10_language_default (s0 : Store) (raws : List RawRow)
    (hwf : wellFormed (raws.map cleanRow))
    (raw : RawRow) (hmem : raw ∈ raws) (hlang : cleanCell raw.language = none) :
    "Unknown" ∈ (importApp s0 raws).1.languages.names ∧
    (∃ i, (i, "Unknown") ∈ (importApp s0 raws).1.languages.rows ∧
      ∃ b ∈ (importApp s0 raws).1.books,
        some b.book_id = raw.book_id ∧ b.language_id = some i) ∧
    (∃ row ∈ readAll (importApp s0 raws).1,
      some row.book_id = raw.book_id ∧ row.language = some "Unknown") := by
  set df := raws.map cleanRow with hdf
  set s2 := dimsPass getIdApp Store.empty df with hs2
  have hres : importApp s0 raws =
      ({ s2 with books := df.map (expectedBook s2) }, none) := by
    rw [importApp, ← hdf, populateApp_wf s0 hwf, ← hs2]
  set r := cleanRow raw with hr
  have hrdf : r ∈ df := List.mem_map.mpr ⟨raw, hmem, rfl⟩
  have hrl : r.language = some "Unknown" := by
    show (cleanRow raw).language = some "Unknown"
    rw [cleanRow]; simp [hlang]
  have hok2 : StoreOk s2 := storeOk_dimsPass gidSound_app storeOk_empty df
  have hpres : "Unknown" ∈ s2.languages.names :=
    (dimsPass_present gidSound_app df hrdf).2.2.2 "Unknown" hrl trivial
  obtain ⟨i, hid, hirow⟩ := DimTable.lookupId_some hpres
  obtain ⟨hbid, httl⟩ := hwf.1 r hrdf
  obtain ⟨n, hn⟩ := Option.isSome_iff_exists.mp hbid
  have hbmem : expectedBook s2 r ∈ (importApp s0 raws).1.books := by
    rw [hres]; exact List.mem_map.mpr ⟨r, hrdf, rfl⟩
  have hlid : (expectedBook s2 r).language_id = some i := by
    show r.language.bind s2.languages.lookupId = some i
    rw [hrl]; simpa using hid
  have hbookid : some ((expectedBook s2 r).book_id) = raw.book_id := by
    show some (r.book_id.getD 0) = r.book_id
    rw [hn]; rfl
  refine ⟨by rw [hres]; exact hpres, ⟨i, by rw [hres]; exact hirow,
    expectedBook s2 r, hbmem, hbookid, hlid⟩, ?_⟩
  refine ⟨joinRow (importApp s0 raws).1 (expectedBook s2 r),
    joinRow_mem_readAll hbmem, hbookid, ?_⟩
  show ((expectedBook s2 r).language_id).bind ((importApp s0 raws).1.languages.lookupName) = some "Unknown"
  rw [hlid, hres]
  show (s2.languages.lookupName i) = some "Unknown"
  exact DimTable.lookupName_of_mem hok2.2.2.2 hirow

/-- Witness for C10: spec scenario row 1 has an empty language cell. -/
theorem c10_language_default_witness :
    (wellFormed ([raw1, raw2].map cleanRow) ∧ raw1 ∈ [raw1, raw2] ∧
      cleanCell raw1.language = none) ∧
    "Unknown" ∈ (importApp Store.empty [raw1, raw2]).1.languages.names :=
  ⟨⟨by unfold wellFormed; exact ⟨by decide, by decide⟩, by decide, by decide⟩,
    (c10_language_default Store.empty [raw1, raw2]
      (by unfold wellFormed; exact ⟨by decide, by decide⟩) raw1 (by decide)
      (by decide)).1⟩

/-- **C9 counterexample**: on a store whose single book has all foreign keys
null, the `build_installer.py` read query (`COALESCE(..., '')`) returns the
empty string — a present value, not a SQL `NULL` — for every dimension name,
while the `app_one_tab_pro.py`/`kaveh_books1.py` query returns `NULL`
(`none`).  So "a dimension name is null when the foreign key is null" is
false of the installer's denormalized read query. -/
theorem c9_counterexample :
    sNull.books.map Book.brand_id = [none] ∧
    (readAllInst sNull).map ReadRowI.brand = [""] ∧
    (readAll sNull).map ReadRow.brand = [none] := by
  refine ⟨by decide, by decide, by decide⟩

/-- **C9 amended**: both read queries return exactly one row per book, in
`book_id`-ascending order; a null foreign key yields a `NULL` dimension name
in the app/kaveh query but the empty string (via `COALESCE`) in the
installer query; a foreign key referencing a dimension row yields that row's
name in both. -/
theorem c9_amended (s : Store) (hok : StoreOk s) :
    (readAll s).length = s.books.length ∧
    (readAllInst s).length = s.books.length ∧
    ((readAll s).map ReadRow.book_id).Pairwise (· ≤ ·) ∧
    ((readAllInst s).map ReadRowI.book_id).Pairwise (· ≤ ·) ∧
    (∀ b ∈ s.books, joinRow s b ∈ readAll s ∧ joinRowInst s b ∈ readAllInst s) ∧
    (∀ b ∈ s.books,
      (b.brand_id = none → (joinRow s b).brand = none ∧ (joinRowInst s b).brand = "") ∧
      (b.model_id = none → (joinRow s b).model = none ∧ (joinRowInst s b).model = "") ∧
      (b.machine_type_id = none →
        (joinRow s b).machine_type = none ∧ (joinRowInst s b).machine_type = "") ∧
      (b.language_id = none →
        (joinRow s b).language = none ∧ (joinRowInst s b).language = "") ∧
      (∀ i v, b.brand_id = some i → (i, v) ∈ s.brands.rows →
        (joinRow s b).brand = some v ∧ (joinRowInst s b).brand = v)) := by
  refine ⟨length_readAll s, length_readAllInst s, readAll_sorted s,
    readAllInst_sorted s,
    fun b hb => ⟨joinRow_mem_readAll hb, joinRowInst_mem_readAllInst hb⟩,
    fun b _ => ⟨?_, ?_, ?_, ?_, ?_⟩⟩
  · intro h; exact ⟨by simp [joinRow, h], by simp [joinRowInst, h]⟩
  · intro h; exact ⟨by simp [joinRow, h], by simp [joinRowInst, h]⟩
  · intro h; exact ⟨by simp [joinRow, h], by simp [joinRowInst, h]⟩
  · intro h; exact ⟨by simp [joinRow, h], by simp [joinRowInst, h]⟩
  · intro i v hi hv
    have hname := DimTable.lookupName_of_mem hok.1 hv
    exact ⟨by simp [joinRow, hi, Option.bind, hname],
      by simp [joinRowInst, hi, Option.bind, hname]⟩

/-- Witness for the amended C9 at the concrete null-FK store. -/
theorem c9_amended_witness :
    StoreOk sNull ∧ (readAll sNull).length = sNull.books.length :=
  ⟨⟨by unfold DimTable.ok; exact ⟨by decide, by decide, by decide⟩,
    by unfold DimTable.ok; exact ⟨by decide, by decide, by decide⟩,
    by unfold DimTable.ok; exact ⟨by decide, by decide, by decide⟩,
    by unfold DimTable.ok; exact ⟨by decide, by decide, by decide⟩⟩,
    (c9_amended sNull
      ⟨by unfold DimTable.ok; exact ⟨by decide, by decide, by decide⟩,
      by unfold DimTable.ok; exact ⟨by decide, by decide, by decide⟩,
      by unfold DimTable.ok; exact ⟨by decide, by decide, by decide⟩,
      by unfold DimTable.ok; exact ⟨by decide, by decide, by decide⟩⟩).1⟩

/-! ### C4: uniqueness of `book_id` -/

theorem nodup_insertOrReplace {bs : List Book}
    (h : (bs.map (fun b => b.book_id)).Nodup) (b : Book) :
    ((insertOrReplace bs b).map (fun b => b.book_id)).Nodup := by
  rw [insertOrReplace, List.map_append, List.nodup_append]
  refine ⟨?_, by simp, ?_⟩
  · exact ((List.filter_sublist bs).map _).nodup h
  · intro x hx hx'
    simp at hx'
    obtain ⟨b', hb', hbeq⟩ := List.mem_map.mp hx
    have := List.of_mem_filter hb'
    simp at this
    exact this (by rw [hbeq, hx'])

theorem nodup_foldl_ior {l : List Book} :
    ∀ {acc : List Book}, (acc.map (fun b => b.book_id)).Nodup →
    ((l.foldl insertOrReplace acc).map (fun b => b.book_id)).Nodup := by
  induction l with
  | nil => intro acc h; exact h
  | cons b tl ih =>
    intro acc h
    exact ih (nodup_insertOrReplace h b)

theorem mem_foldl_ior {n : Int} {l : List Book} :
    ∀ {acc : List Book},
    (n ∈ acc.map (fun b => b.book_id) ∨ n ∈ l.map (fun b => b.book_id)) →
    n ∈ (l.foldl insertOrReplace acc).map (fun b => b.book_id) := by
  induction l with
  | nil =>
    intro acc h
    rcases h with h | h
    · exact h
    · simp at h
  | cons b tl ih =>
    intro acc h
    rw [List.foldl_cons]
    by_cases hbn : n = b.book_id
    · refine ih (Or.inl ?_)
      rw [insertOrReplace, List.map_append]
      simp [hbn]
    · rcases h with h | h
      · refine ih (Or.inl ?_)
        obtain ⟨b', hb', hbeq⟩ := List.mem_map.mp h
        rw [insertOrReplace, List.map_append]
        refine List.mem_append.mpr (Or.inl (List.mem_map.mpr ⟨b', ?_, hbeq⟩))
        refine List.mem_filter.mpr ⟨hb', ?_⟩
        simp
        intro he
        exact hbn (by rw [← hbeq, he])
      · rcases List.mem_map.mp h with ⟨b', hb', hbeq⟩
        rcases List.mem_cons.mp hb' with rfl | hb''
        · exact absurd hbeq.symm hbn
        · exact ih (Or.inr (List.mem_map.mpr ⟨b', hb'', hbeq⟩))

theorem buildBooksInst_ids {s : Store} {df : List CleanRow} {books : List Book}
    (h : buildBooksInst s df = .ok books) :
    books.map (fun b => some b.book_id) = df.map (·.book_id) := by
  induction df generalizing books with
  | nil =>
    obtain rfl := Except.ok.inj h
    rfl
  | cons r rs ih =>
    rw [buildBooksInst] at h
    cases hb : buildBookInst s r with
    | error e => rw [hb] at h; simp [Bind.bind, Except.bind] at h
    | ok b =>
      rw [hb] at h
      simp only [Bind.bind, Except.bind] at h
      cases hbs : buildBooksInst s rs with
      | error e => rw [hbs] at h; simp [Except.bind] at h
      | ok bs =>
        rw [hbs] at h
        simp only [Except.bind] at h
        obtain rfl := Except.ok.inj h
        have hid : some b.book_id = r.book_id := by
          cases hbid : r.book_id with
          | none => simp [buildBookInst, hbid] at hb
          | some n =>
            simp only [buildBookInst, hbid] at hb
            obtain rfl := Except.ok.inj hb
            rfl
        rw [List.map_cons, List.map_cons, hid, ih hbs]

/-- **C4**: after any import run — successful or failed — the visible store
never holds two book rows with the same `book_id`; a batch containing a
duplicate numeric `book_id` fails the `app_one_tab_pro.py` import as a whole
(plain `INSERT` against `book_id INTEGER UNIQUE`); and the
`build_installer.py` import (`INSERT OR REPLACE`), when it succeeds on such a
batch, leaves exactly one row with that `book_id`. -/
theorem c4_unique_book_id (s0 : Store) (df : List CleanRow) :
    ((populateApp s0 df).1.books.map (fun b => b.book_id)).Nodup ∧
    ((populateInst s0 df).1.books.map (fun b => b.book_id)).Nodup ∧
    (¬ (df.map (·.book_id)).Nodup → (populateApp s0 df).2 ≠ none) ∧
    (∀ n : Int, (populateInst s0 df).2 = none → some n ∈ df.map (·.book_id) →
      ((populateInst s0 df).1.books.map (fun b => b.book_id)).count n = 1) := by
  refine ⟨?_, ?_, ?_, ?_⟩
  · rw [populateApp, populateWith]
    cases hfp : factPass getIdApp (dimsPass getIdApp Store.empty df) df with
    | error e => simp [dimsPass_books, Store.empty]
    | ok s3 =>
      simp only
      exact (factPass_ids hfp).2 (by rw [dimsPass_books]; exact List.nodup_nil)
  · rw [populateInst]
    cases hfp : factPassInst (dimsPassInst Store.empty df) df with
    | error e => simp [Store.empty]
    | ok s3 =>
      simp only
      rw [factPassInst] at hfp
      cases hbb : buildBooksInst (dimsPassInst Store.empty df) df with
      | error e => rw [hbb] at hfp; simp [Bind.bind, Except.bind] at hfp
      | ok books =>
        rw [hbb] at hfp
        simp only [Bind.bind, Except.bind] at hfp
        obtain rfl := Except.ok.inj hfp
        exact nodup_foldl_ior (by simp [dimsPassInst, Store.empty])
  · intro hdup hnone
    rw [populateApp, populateWith] at hnone
    cases hfp : factPass getIdApp (dimsPass getIdApp Store.empty df) df with
    | error e => rw [hfp] at hnone; simp at hnone
    | ok s3 =>
      have hids := (factPass_ids hfp).1
      rw [dimsPass_books] at hids
      have hnd3 : (s3.books.map (fun b => b.book_id)).Nodup :=
        (factPass_ids hfp).2 (by rw [dimsPass_books]; exact List.nodup_nil)
      have hnds : (s3.books.map (fun b => some b.book_id)).Nodup := by
        have heq : s3.books.map (fun b => some b.book_id) =
            (s3.books.map (fun b => b.book_id)).map some := by
          rw [List.map_map]; rfl
        rw [heq]
        exact hnd3.map (fun _ _ h => Option.some.inj h)
      rw [hids] at hnds
      exact hdup (List.Nodup.of_append_right hnds)
  · intro n hnone hmem
    rw [populateInst] at hnone ⊢
    cases hfp : factPassInst (dimsPassInst Store.empty df) df with
    | error e => rw [hfp] at hnone; simp at hnone
    | ok s3 =>
      simp only
      rw [factPassInst] at hfp
      cases hbb : buildBooksInst (dimsPassInst Store.empty df) df with
      | error e => rw [hbb] at hfp; simp [Bind.bind, Except.bind] at hfp
      | ok books =>
        rw [hbb] at hfp
        simp only [Bind.bind, Except.bind] at hfp
        obtain rfl := Except.ok.inj hfp
        have hids := buildBooksInst_ids hbb
        have hnmem : n ∈ books.map (fun b => b.book_id) := by
          rw [← hids] at hmem
          obtain ⟨b, hb, hbeq⟩ := List.mem_map.mp hmem
          exact List.mem_map.mpr ⟨b, hb, Option.some.inj hbeq⟩
        have hnd : (((books.foldl insertOrReplace
            (dimsPassInst Store.empty df).books)).map (fun b => b.book_id)).Nodup :=
          nodup_foldl_ior (by simp [dimsPassInst, Store.empty])
        exact List.count_eq_one_of_mem hnd (mem_foldl_ior (Or.inr hnmem))

/-- Witness for C4 at the duplicate-`book_id` batch `[rawD1, rawD2]`. -/
theorem c4_unique_book_id_witness :
    ¬ ((([rawD1, rawD2].map cleanRow).map (·.book_id)).Nodup) ∧
    (populateApp Store.empty ([rawD1, rawD2].map cleanRow)).2 ≠ none ∧
    (populateInst Store.empty ([rawD1, rawD2].map cleanRowInst)).2 = none ∧
    ((populateInst Store.empty ([rawD1, rawD2].map cleanRowInst)).1.books.map
      (fun b => b.book_id)).count 5 = 1 :=
  ⟨by decide,
    (c4_unique_book_id Store.empty ([rawD1, rawD2].map cleanRow)).2.2.1 (by decide),
    by decide,
    (c4_unique_book_id Store.empty ([rawD1, rawD2].map cleanRowInst)).2.2.2 5
      (by decide) (by decide)⟩

/-! ### C1: atomicity of a failed import -/

/-- **C1 counterexample**: starting from a populated prior store, an import
whose single row has a non-numeric `book_id` fails after it has begun, and
the store visible afterwards is **not** the prior store: in the
`app_one_tab_pro.py` variant the schema reset and the new spreadsheet's
dimension rows are committed with no book rows (a partially populated
catalog); in the `build_installer.py` variant the rollback only restores the
freshly reset empty store.  In neither variant is the prior store
restored. -/
theorem c1_counterexample :
    (importApp s0c [rawBad]).2 ≠ none ∧
    (importApp s0c [rawBad]).1 ≠ s0c ∧
    (importApp s0c [rawBad]).1.books = [] ∧
    (importApp s0c [rawBad]).1.brands.names = ["NewBrand"] ∧
    (importInst s0c [rawBad]).2 ≠ none ∧
    (importInst s0c [rawBad]).1 = Store.empty ∧
    s0c ≠ Store.empty := by
  refine ⟨by decide, by decide, by decide, by decide, by decide, by decide, by decide⟩

/-- **C1 amended**: a failed import run does not restore the prior store —
the result is independent of the prior store in all three variants; on
failure the app/kaveh variants leave the reset store with the new
spreadsheet's dimension rows committed and no book rows, and the installer
variant leaves the freshly reset empty store. -/
theorem c1_amended (s0 s0' : Store) (df : List CleanRow) :
    populateApp s0 df = populateApp s0' df ∧
    populateKaveh s0 df = populateKaveh s0' df ∧
    populateInst s0 df = populateInst s0' df ∧
    ((populateApp s0 df).2 ≠ none → (populateApp s0 df).1.books = [] ∧
      ∀ v ∈ colVals df (·.brand), v ∈ (populateApp s0 df).1.brands.names) ∧
    ((populateKaveh s0 df).2 ≠ none → (populateKaveh s0 df).1.books = []) ∧
    ((populateInst s0 df).2 ≠ none → (populateInst s0 df).1 = Store.empty) := by
  refine ⟨rfl, rfl, rfl, ?_, ?_, ?_⟩
  · intro hfail
    rw [populateApp, populateWith] at hfail ⊢
    cases hfp : factPass getIdApp (dimsPass getIdApp Store.empty df) df with
    | ok s3 => rw [hfp] at hfail; simp at hfail
    | error e =>
      refine ⟨rfl, fun v hv => ?_⟩
      exact internList_mem gidSound_app (Or.inr ⟨mem_sortedUnique.mpr hv, trivial⟩)
  · intro hfail
    rw [populateKaveh, populateWith] at hfail ⊢
    cases hfp : factPass getIdKaveh (dimsPass getIdKaveh Store.empty df) df with
    | ok s3 => rw [hfp] at hfail; simp at hfail
    | error e => rfl
  · intro hfail
    rw [populateInst] at hfail ⊢
    cases hfp : factPassInst (dimsPassInst Store.empty df) df with
    | ok s3 => rw [hfp] at hfail; simp at hfail
    | error e => rfl

/-- Witness for the amended C1 at the failing batch `[rawBad]`. -/
theorem c1_amended_witness :
    (populateApp s0c ([rawBad].map cleanRow)).2 ≠ none ∧
    (populateApp s0c ([rawBad].map cleanRow)).1.books = [] :=
  ⟨by decide,
    ((c1_amended s0c Store.empty ([rawBad].map cleanRow)).2.2.2.1 (by decide)).1⟩

/-! ### C2: dimension filter semantics -/

theorem mem_dimFilter {get : ReadRow → Option String} {f : String}
    {rows : List ReadRow} {r : ReadRow} :
    r ∈ dimFilter get f rows ↔ r ∈ rows ∧ (f ≠ sentinel → get r = some f) := by
  by_cases hf : f = sentinel
  · simp [dimFilter, hf]
  · simp [dimFilter, hf, List.mem_filter]

theorem dimFilter_sentinel (get : ReadRow → Option String) (rows : List ReadRow) :
    dimFilter get sentinel rows = rows := by
  rw [dimFilter, if_pos rfl]

theorem dimFilter_nil (get : ReadRow → Option String) (f : String) :
    dimFilter get f [] = [] := by
  by_cases hf : f = sentinel <;> simp [dimFilter, hf]

theorem dimFilterK_eq {get : ReadRow → Option String} {f : String}
    (hf : f ≠ "") (rows : List ReadRow) :
    dimFilterK get f rows = dimFilter get f rows := by
  by_cases hs : f = sentinel
  · simp [dimFilterK, dimFilter, hs]
  · rw [dimFilterK, if_neg (by simp [hf, hs]), dimFilter, if_neg hs]

theorem titleFilter_ok {q : String} {p : Rx} (rows : List ReadRow)
    (hq : q ≠ "" → parseRx (lowerStr q) = some p) :
    ∃ out, titleFilter q rows = .ok out ∧
      ∀ r, r ∈ out ↔ r ∈ rows ∧ (q ≠ "" → rsearch p (lowerStr r.title) = true) := by
  by_cases hqe : q = ""
  · subst hqe
    exact ⟨rows, rfl, fun r => by simp⟩
  · rw [titleFilter, if_neg hqe, hq hqe]
    exact ⟨_, rfl, fun r => by simp [List.mem_filter, hqe]⟩

/-- **C2**: the `app_one_tab_pro.py` filter block never fails when the query
is absent or compiles, and a row is in its output iff it is an input row,
for every dimension whose selection is not the `"(همه)"` sentinel the row's
dimension name equals the selection exactly (case-sensitive whole-string
equality, `none` never matching), and the title predicate holds when a query
is present — all combined by logical AND.  With only a brand selected the
output is exactly the rows whose brand name is that value and the count
equals the number of such rows; `kaveh_books1.apply_filters` agrees whenever
its selections are nonempty and the query is empty. -/
theorem c2_filter_semantics (rows : List ReadRow) (fb ft fm fl q : String)
    (p : Rx) (hq : q ≠ "" → parseRx (lowerStr q) = some p) :
    ∃ out, applyFiltersApp rows fb ft fm fl q = .ok out ∧
      (∀ r, r ∈ out ↔ r ∈ rows ∧
        (fb ≠ sentinel → r.brand = some fb) ∧
        (ft ≠ sentinel → r.machine_type = some ft) ∧
        (fm ≠ sentinel → r.model = some fm) ∧
        (fl ≠ sentinel → r.language = some fl) ∧
        (q ≠ "" → rsearch p (lowerStr r.title) = true)) ∧
      (fb ≠ sentinel → ft = sentinel → fm = sentinel → fl = sentinel → q = "" →
        out = rows.filter (fun r => r.brand = some fb) ∧
        out.length = (rows.filter (fun r => r.brand = some fb)).length) ∧
      (q = "" → fb ≠ "" → ft ≠ "" → fm ≠ "" → fl ≠ "" →
        applyFiltersKaveh rows fb ft fm fl "" = .ok out) := by
  have happ : applyFiltersApp rows fb ft fm fl q =
      titleFilter q (dimFilter (·.language) fl (dimFilter (·.model) fm
        (dimFilter (·.machine_type) ft (dimFilter (·.brand) fb rows)))) := rfl
  obtain ⟨out, hout, hmem⟩ := titleFilter_ok
    (dimFilter (·.language) fl (dimFilter (·.model) fm
      (dimFilter (·.machine_type) ft (dimFilter (·.brand) fb rows)))) hq
  refine ⟨out, by rw [happ, hout], ?_, ?_, ?_⟩
  · intro r
    rw [hmem r]
    simp only [mem_dimFilter]
    tauto
  · intro hfb hft hfm hfl hqe
    subst hft hfm hfl hqe
    have : out = dimFilter (·.brand) fb rows := by
      have h0 := hout
      rw [dimFilter_sentinel, dimFilter_sentinel, dimFilter_sentinel] at h0
      rw [titleFilter] at h0
      rw [if_pos rfl] at h0
      exact (Except.ok.inj h0).symm
    rw [this, dimFilter, if_neg hfb]
    exact ⟨rfl, rfl⟩
  · intro hqe hfb hft hfm hfl
    subst hqe
    by_cases hrows : rows = []
    · subst hrows
      rw [dimFilter_nil, dimFilter_nil, dimFilter_nil, dimFilter_nil] at hout
      rw [titleFilter] at hout
      rw [if_pos rfl] at hout
      obtain rfl := Except.ok.inj hout
      rfl
    · have hstrip : pyStrip "" = "" := by decide
      simp only [applyFiltersKaveh]
      rw [if_neg hrows]
      rw [dimFilterK_eq hfb, dimFilterK_eq hft, dimFilterK_eq hfm, dimFilterK_eq hfl]
      rw [hstrip, ← hout]

/-- Witness for C2: brand-only filtering of the spec-scenario read view. -/
theorem c2_filter_semantics_witness :
    applyFiltersApp (readAll (importApp Store.empty [raw1, raw2]).1)
      "ABC" sentinel sentinel sentinel "" =
    .ok ((readAll (importApp Store.empty [raw1, raw2]).1).filter
      (fun r => r.brand = some "ABC")) := by
  obtain ⟨out, hout, hmem, hbrand, hkaveh⟩ := c2_filter_semantics
    (readAll (importApp Store.empty [raw1, raw2]).1)
    "ABC" sentinel sentinel sentinel "" Rx.eps (fun h => absurd rfl h)
  obtain ⟨heq, -⟩ := hbrand (by decide) rfl rfl rfl rfl
  rw [← heq]
  exact hout

/-! ### C3: the title query is a regex, not a literal substring -/

/-- **C3 counterexample**: with the single row titled `"abc"`, the query
`"."` (which does not occur in `"abc"` as a literal substring) matches and
returns the row, because `str.contains` treats the query as a regular
expression; and the query `"("` makes the filtering step fail with a
`re.error` instead of returning rows containing the literal `"("`.  Both
refute "returns exactly the rows whose title contains q as a
case-insensitive literal substring, and this filtering step never fails". -/
theorem c3_counterexample :
    applyFiltersApp [rowAbc] sentinel sentinel sentinel sentinel "." = .ok [rowAbc] ∧
    containsLit "." "abc" = false ∧
    applyFiltersApp [rowAbc] sentinel sentinel sentinel sentinel "(" =
      .error "re.error: invalid regular expression" := by
  refine ⟨rfl, by decide, rfl⟩

/-- **C3 amended**: for a non-empty query the title filtering step compiles
the query as a case-insensitive regular expression: if compilation fails the
filtering step fails, otherwise it returns exactly the rows whose
(lower-cased) title the regex matches somewhere. -/
theorem c3_amended (rows : List ReadRow) (q : String) (hq : q ≠ "") :
    (parseRx (lowerStr q) = none →
      applyFiltersApp rows sentinel sentinel sentinel sentinel q =
        .error "re.error: invalid regular expression") ∧
    ∀ p, parseRx (lowerStr q) = some p →
      applyFiltersApp rows sentinel sentinel sentinel sentinel q =
        .ok (rows.filter (fun row => rsearch p (lowerStr row.title))) ∧
      ∀ r, r ∈ rows.filter (fun row => rsearch p (lowerStr row.title)) ↔
        r ∈ rows ∧ rsearch p (lowerStr r.title) = true := by
  have happ : applyFiltersApp rows sentinel sentinel sentinel sentinel q =
      titleFilter q rows := by
    rw [applyFiltersApp]
    rw [dimFilter_sentinel, dimFilter_sentinel, dimFilter_sentinel, dimFilter_sentinel]
  constructor
  · intro hp
    rw [happ, titleFilter, if_neg hq, hp]
  · intro p hp
    rw [happ, titleFilter, if_neg hq, hp]
    exact ⟨rfl, fun r => by simp [List.mem_filter]⟩

/-- Witness for the amended C3 at the query `"a"` over the `"abc"` row. -/
theorem c3_amended_witness :
    ("a" : String) ≠ "" ∧
    applyFiltersApp [rowAbc] sentinel sentinel sentinel sentinel "a" =
      .ok ([rowAbc].filter (fun row =>
        rsearch (Rx.cat (Rx.chr 'a') Rx.eps) (lowerStr row.title))) :=
  ⟨by decide,
    ((c3_amended [rowAbc] "a" (by decide)).2 (Rx.cat (Rx.chr 'a') Rx.eps)
      (by decide)).1⟩

/-! ### C8: whitespace-only queries -/

/-- **C8 counterexample**: in `app_one_tab_pro.py` the query is not stripped,
so the whitespace-only query `" "` is truthy and is applied as a containment
predicate: the row titled `"Engine"` (no space in the title) is filtered
out, whereas with no query it is returned — the outputs differ. -/
theorem c8_counterexample :
    applyFiltersApp [rowEngine] sentinel sentinel sentinel sentinel " " = .ok [] ∧
    applyFiltersApp [rowEngine] sentinel sentinel sentinel sentinel "" =
      .ok [rowEngine] ∧
    ([] : List ReadRow) ≠ [rowEngine] := by
  refine ⟨rfl, rfl, by decide⟩

/-- **C8 amended**: an empty query is equivalent to no query in every
variant; a query that strips to the empty string is equivalent to the empty
query in `kaveh_books1.apply_filters` (and
`build_installer._apply_filters_async`), which strip the query — but not in
`app_one_tab_pro.py`, which applies the raw query (see the
counterexample). -/
theorem c8_amended (rows : List ReadRow) (fb ft fm fl q : String)
    (hq : pyStrip q = "") :
    applyFiltersKaveh rows fb ft fm fl q = applyFiltersKaveh rows fb ft fm fl "" ∧
    applyFiltersApp rows sentinel sentinel sentinel sentinel "" = .ok rows := by
  constructor
  · have hstrip : pyStrip "" = "" := by decide
    simp only [applyFiltersKaveh, hq, hstrip]
  · show titleFilter "" _ = _
    rw [dimFilter_sentinel, dimFilter_sentinel, dimFilter_sentinel, dimFilter_sentinel]
    rfl

/-- Witness for the amended C8 at the whitespace query `" "`. -/
theorem c8_amended_witness :
    pyStrip " " = "" ∧
    applyFiltersKaveh [rowEngine] sentinel sentinel sentinel sentinel " " =
      applyFiltersKaveh [rowEngine] sentinel sentinel sentinel sentinel "" :=
  ⟨by decide,
    (c8_amended [rowEngine] sentinel sentinel sentinel sentinel " " (by decide)).1⟩

/-! ### C6 and C7: dimension-name hygiene -/

theorem insertMany_ok {t : DimTable} (hok : t.ok) (vs : List String) :
    (insertMany t vs).ok := by
  induction vs generalizing t with
  | nil => exact hok
  | cons v tl ih => exact ih (DimTable.ok_insertIgnore hok v)

/-- Well-formedness of all dimension tables of the store visible after any
app/kaveh `populate_replace` run. -/
theorem populate_storeOk {gid} {P : String → Prop} (hg : GidSound gid P)
    (s0 : Store) (df : List CleanRow) : StoreOk (populateWith gid s0 df).1 := by
  rw [populateWith]
  cases hfp : factPass gid (dimsPass gid Store.empty df) df with
  | error e => exact storeOk_dimsPass hg storeOk_empty df
  | ok s3 => exact factPass_storeOk hg (storeOk_dimsPass hg storeOk_empty df) hfp

/-- Well-formedness of all dimension tables of the store visible after any
installer `populate_replace` run. -/
theorem populateInst_storeOk (s0 : Store) (df : List CleanRow) :
    StoreOk (populateInst s0 df).1 := by
  have hok2 : StoreOk (dimsPassInst Store.empty df) :=
    ⟨insertMany_ok DimTable.ok_empty _, insertMany_ok DimTable.ok_empty _,
      insertMany_ok DimTable.ok_empty _, insertMany_ok DimTable.ok_empty _⟩
  rw [populateInst]
  cases hfp : factPassInst (dimsPassInst Store.empty df) df with
  | error e => exact storeOk_empty
  | ok s3 =>
    rw [factPassInst] at hfp
    cases hbb : buildBooksInst (dimsPassInst Store.empty df) df with
    | error e => rw [hbb] at hfp; simp [Bind.bind, Except.bind] at hfp
    | ok books =>
      rw [hbb] at hfp
      simp only [Bind.bind, Except.bind] at hfp
      obtain rfl := Except.ok.inj hfp
      exact hok2

/-- Every dimension name visible after any app/kaveh `populate_replace` run
is a value of the corresponding cleaned column and satisfies `P`. -/
theorem populate_names {gid} {P : String → Prop} (hg : GidSound gid P)
    (s0 : Store) (df : List CleanRow) :
    (∀ w ∈ (populateWith gid s0 df).1.brands.names,
      w ∈ colVals df (·.brand) ∧ P w) ∧
    (∀ w ∈ (populateWith gid s0 df).1.machine_types.names,
      w ∈ colVals df (·.machine_type) ∧ P w) ∧
    (∀ w ∈ (populateWith gid s0 df).1.models.names,
      w ∈ colVals df (·.model) ∧ P w) ∧
    (∀ w ∈ (populateWith gid s0 df).1.languages.names,
      w ∈ colVals df (·.language) ∧ P w) := by
  rw [populateWith]
  cases hfp : factPass gid (dimsPass gid Store.empty df) df with
  | error e => exact dimsPass_names hg df
  | ok s3 =>
    obtain ⟨hb, hmt, hm, hl⟩ := factPass_names hg hfp
    obtain ⟨hb0, hmt0, hm0, hl0⟩ := dimsPass_names hg df
    refine ⟨fun w hw => ?_, fun w hw => ?_, fun w hw => ?_, fun w hw => ?_⟩
    · rcases hb w hw with h | ⟨r, hr, hv, hP⟩
      · exact hb0 w h
      · exact ⟨List.mem_filterMap.mpr ⟨r, hr, hv⟩, hP⟩
    · rcases hmt w hw with h | ⟨r, hr, hv, hP⟩
      · exact hmt0 w h
      · exact ⟨List.mem_filterMap.mpr ⟨r, hr, hv⟩, hP⟩
    · rcases hm w hw with h | ⟨r, hr, hv, hP⟩
      · exact hm0 w h
      · exact ⟨List.mem_filterMap.mpr ⟨r, hr, hv⟩, hP⟩
    · rcases hl w hw with h | ⟨r, hr, hv, hP⟩
      · exact hl0 w h
      · exact ⟨List.mem_filterMap.mpr ⟨r, hr, hv⟩, hP⟩

/-- **C6 counterexample**: a whitespace-only brand cell survives the
app-variant cleaning as the empty string (only the literal `"nan"` is mapped
to missing), and `app_one_tab_pro.py`'s `get_id` happily interns it: after
the import the `brands` table holds a row named `""` and the book references
it — not a null foreign key.  (`kaveh_books1.py`'s `get_id` rejects falsy
names, so the same input yields no blank row and a null foreign key there.) -/
theorem c6_counterexample :
    (importApp Store.empty [rawWS]).1.brands.rows = [(1, "")] ∧
    (importApp Store.empty [rawWS]).1.books.map Book.brand_id = [some 1] ∧
    (importApp Store.empty [rawWS]).2 = none ∧
    (importKaveh Store.empty [rawWS]).1.brands.rows = [] ∧
    (importKaveh Store.empty [rawWS]).1.books.map Book.brand_id = [none] := by
  refine ⟨by decide, by decide, by decide, by decide, by decide⟩

/-- **C6 amended**: after every import, every dimension table of every
variant has pairwise-distinct names; the `kaveh_books1.py` variant moreover
never creates a blank-named dimension row (its `get_id` treats falsy names
as absent, yielding a null foreign key instead) — but the
`app_one_tab_pro.py` variant interns a whitespace-only cell as a dimension
row named `""` referenced by the book, as the counterexample shows. -/
theorem c6_amended (s0 : Store) (df : List CleanRow) :
    ((populateApp s0 df).1.brands.names.Nodup ∧
      (populateApp s0 df).1.machine_types.names.Nodup ∧
      (populateApp s0 df).1.models.names.Nodup ∧
      (populateApp s0 df).1.languages.names.Nodup) ∧
    ((populateKaveh s0 df).1.brands.names.Nodup ∧
      (populateKaveh s0 df).1.machine_types.names.Nodup ∧
      (populateKaveh s0 df).1.models.names.Nodup ∧
      (populateKaveh s0 df).1.languages.names.Nodup) ∧
    ((populateInst s0 df).1.brands.names.Nodup ∧
      (populateInst s0 df).1.machine_types.names.Nodup ∧
      (populateInst s0 df).1.models.names.Nodup ∧
      (populateInst s0 df).1.languages.names.Nodup) ∧
    ((∀ v ∈ (populateKaveh s0 df).1.brands.names, v ≠ "") ∧
      (∀ v ∈ (populateKaveh s0 df).1.machine_types.names, v ≠ "") ∧
      (∀ v ∈ (populateKaveh s0 df).1.models.names, v ≠ "") ∧
      (∀ v ∈ (populateKaveh s0 df).1.languages.names, v ≠ "")) := by
  obtain ⟨ha1, ha2, ha3, ha4⟩ := populate_storeOk gidSound_app s0 df
  obtain ⟨hk1, hk2, hk3, hk4⟩ := populate_storeOk gidSound_kaveh s0 df
  obtain ⟨hi1, hi2, hi3, hi4⟩ := populateInst_storeOk s0 df
  obtain ⟨hn1, hn2, hn3, hn4⟩ := populate_names gidSound_kaveh s0 df
  exact ⟨⟨ha1.1, ha2.1, ha3.1, ha4.1⟩, ⟨hk1.1, hk2.1, hk3.1, hk4.1⟩,
    ⟨hi1.1, hi2.1, hi3.1, hi4.1⟩,
    fun v hv => (hn1 v hv).2, fun v hv => (hn2 v hv).2,
    fun v hv => (hn3 v hv).2, fun v hv => (hn4 v hv).2⟩

/-- Witness for the amended C6: a populated kaveh brand name, shown nonblank
by the theorem. -/
theorem c6_amended_witness :
    (populateApp Store.empty ([raw1].map cleanRow)).1.brands.names.Nodup ∧
    "ABC" ∈ (populateKaveh Store.empty ([raw1].map cleanRow)).1.brands.names ∧
    ("ABC" : String) ≠ "" :=
  ⟨(c6_amended Store.empty ([raw1].map cleanRow)).1.1, by decide,
    (c6_amended Store.empty ([raw1].map cleanRow)).2.2.2.1 "ABC" (by decide)⟩

theorem cleanCell_ne_nan {c : Option String} {v : String}
    (h : cleanCell c = some v) : v ≠ "nan" := by
  rw [cleanCell] at h
  by_cases hs : pyStrip (c.getD "nan") = "nan"
  · simp [hs] at h
  · intro hnan
    apply hs
    have hv : pyStrip (c.getD "nan") = v := by simpa [hs] using h
    rw [hv, hnan]

/-- **C7 counterexample**: a brand cell holding the literal string `"nan"` is
treated as absent by the `app_one_tab_pro.py` cleaning (no `"nan"` dimension
row, null foreign key), but the `build_installer.py` cleaning
(`astype('string')`, no `replace({'nan': pd.NA})`) keeps it, and the import
interns a dimension row named `"nan"` referenced by the book. -/
theorem c7_counterexample :
    (importInst Store.empty [rawN]).1.brands.names = ["nan"] ∧
    (importInst Store.empty [rawN]).1.books.map Book.brand_id = [some 1] ∧
    (importApp Store.empty [rawN]).1.brands.names = [] ∧
    (importApp Store.empty [rawN]).1.books.map Book.brand_id = [none] := by
  refine ⟨by decide, by decide, by decide, by decide⟩

/-- **C7 amended**: in the `app_one_tab_pro.py` / `kaveh_books1.py`
ingestion, a cell whose stringified trimmed value is the literal `"nan"` is
treated as absent, so no dimension table ever holds a name `"nan"`; the
`build_installer.py` ingestion keeps the literal `"nan"` (its cleaning
preserves missing values natively and never replaces `"nan"`), interning it
as an ordinary dimension value, as the counterexample shows. -/
theorem c7_amended (s0 : Store) (raws : List RawRow) :
    ((∀ v ∈ (importApp s0 raws).1.brands.names, v ≠ "nan") ∧
      (∀ v ∈ (importApp s0 raws).1.machine_types.names, v ≠ "nan") ∧
      (∀ v ∈ (importApp s0 raws).1.models.names, v ≠ "nan") ∧
      (∀ v ∈ (importApp s0 raws).1.languages.names, v ≠ "nan")) ∧
    ((∀ v ∈ (importKaveh s0 raws).1.brands.names, v ≠ "nan") ∧
      (∀ v ∈ (importKaveh s0 raws).1.machine_types.names, v ≠ "nan") ∧
      (∀ v ∈ (importKaveh s0 raws).1.models.names, v ≠ "nan") ∧
      (∀ v ∈ (importKaveh s0 raws).1.languages.names, v ≠ "nan")) ∧
    (∀ raw : RawRow, cleanCellInst (some "nan") = some "nan" ∧
      (cleanRowInst raw).brand = raw.brand.map pyStrip) := by
  have hcol : ∀ (f : CleanRow → Option String) (g : RawRow → Option String),
      (∀ raw : RawRow, f (cleanRow raw) = cleanCell (g raw)) →
      ∀ v ∈ colVals (raws.map cleanRow) f, v ≠ "nan" := by
    intro f g hf v hv
    obtain ⟨r, hr, hfr⟩ := List.mem_filterMap.mp hv
    obtain ⟨raw, hraw, rfl⟩ := List.mem_map.mp hr
    rw [hf raw] at hfr
    exact cleanCell_ne_nan hfr
  have hlang : ∀ v ∈ colVals (raws.map cleanRow) (·.language), v ≠ "nan" := by
    intro v hv
    obtain ⟨r, hr, hfr⟩ := List.mem_filterMap.mp hv
    obtain ⟨raw, hraw, rfl⟩ := List.mem_map.mp hr
    have : (cleanRow raw).language = some ((cleanCell raw.language).getD "Unknown") := rfl
    rw [this] at hfr
    obtain rfl := Option.some.inj hfr
    cases hc : cleanCell raw.language with
    | none => decide
    | some u => simpa using cleanCell_ne_nan hc
  obtain ⟨hab, hamt, ham, hal⟩ := populate_names gidSound_app s0 (raws.map cleanRow)
  obtain ⟨hkb, hkmt, hkm, hkl⟩ := populate_names gidSound_kaveh s0 (raws.map cleanRow)
  refine ⟨⟨?_, ?_, ?_, ?_⟩, ⟨?_, ?_, ?_, ?_⟩, fun raw => ⟨rfl, rfl⟩⟩
  · exact fun v hv => hcol (·.brand) (·.brand) (fun _ => rfl) v (hab v hv).1
  · exact fun v hv =>
      hcol (·.machine_type) (·.machine_type) (fun _ => rfl) v (hamt v hv).1
  · exact fun v hv => hcol (·.model) (·.model) (fun _ => rfl) v (ham v hv).1
  · exact fun v hv => hlang v (hal v hv).1
  · exact fun v hv => hcol (·.brand) (·.brand) (fun _ => rfl) v (hkb v hv).1
  · exact fun v hv =>
      hcol (·.machine_type) (·.machine_type) (fun _ => rfl) v (hkmt v hv).1
  · exact fun v hv => hcol (·.model) (·.model) (fun _ => rfl) v (hkm v hv).1
  · exact fun v hv => hlang v (hkl v hv).1

/-- Witness for the amended C7: a populated app brand name, shown distinct
from `"nan"` by the theorem. -/
theorem c7_amended_witness :
    "ABC" ∈ (importApp Store.empty [raw1]).1.brands.names ∧
    ("ABC" : String) ≠ "nan" :=
  ⟨by decide, (c7_amended Store.empty [raw1]).1.1 "ABC" (by decide)⟩

end ArchivedBooks
